import Mathlib

set_option maxRecDepth 100000

/-!
Shallow embedding of the Excel data-cleaning pipeline (src/excel_cleaner.py,
class DataCleaningPipeline) and proofs about its behaviour.

The pandas dataframe is modelled column-wise: a frame is an ordered association
list from column name to a column, and a column carries a dtype marker plus the
ordered list of cell values.  Row-dropping operations (`df.dropna`, boolean row
filters) act on every column through one shared boolean mask, exactly as a
row-subset of a dataframe does.  Numbers are exact rationals represented by a
`Frac` type (integer numerator, positive reduced denominator) so that every
pipeline computation, in particular the linear-interpolation quantiles used by
`median`/`quantile`, is kernel-computable.

External library behaviour that the pipeline calls into is modelled as follows:
* `pd.to_numeric(col, errors="coerce")` parses plain decimal literals; any
  unparseable string becomes the missing marker (NaN).  Exponent notation and
  whitespace stripping are not modelled; no claim depends on them.
* `pd.to_datetime(col, errors="coerce")` parses ISO `YYYY-MM-DD` strings into
  an abstract timeline number; unparseable values become missing.
* `.astype("Int64")` on the numeric-coerced column succeeds iff every
  non-missing value is integral, and raises otherwise (pandas refuses to cast
  non-equivalent floats to Int64); the raise is what the source's
  `try/except` catches.
* A compiled regular expression is modelled as its start-anchored matching
  function `String → Bool` (the semantics of `re.match`).
* Comparing a non-numeric, non-missing cell against a numeric bound raises
  `TypeError` in pandas; this is modelled by `Except`.  A missing cell (NaN)
  compares as `False`.
-/

namespace ExcelCleaner

/-- Exact rational numbers with kernel-computable arithmetic.  All values are
built through `mkFrac`, which normalises (positive reduced denominator), so
structural equality of constructed values coincides with rational equality. -/
structure Frac where
  num : Int
  den : Nat
deriving DecidableEq

/-- Build the normalised fraction n / d (d a positive natural; d = 0 never
arises from pipeline arithmetic and is mapped to 0). -/
def mkFrac (n : Int) (d : Nat) : Frac :=
  if d = 0 then ⟨0, 1⟩
  else
    let g := n.natAbs.gcd d
    ⟨n / (g : Int), d / g⟩

def Frac.ofNat (n : Nat) : Frac := ⟨(n : Int), 1⟩

def Frac.zero : Frac := ⟨0, 1⟩

def Frac.add (a b : Frac) : Frac := mkFrac (a.num * b.den + b.num * a.den) (a.den * b.den)

def Frac.sub (a b : Frac) : Frac := mkFrac (a.num * b.den - b.num * a.den) (a.den * b.den)

def Frac.mul (a b : Frac) : Frac := mkFrac (a.num * b.num) (a.den * b.den)

def Frac.neg (a : Frac) : Frac := ⟨-a.num, a.den⟩

/-- Decide a ≤ b by cross-multiplication (denominators are positive). -/
def Frac.ble (a b : Frac) : Bool := a.num * (b.den : Int) ≤ b.num * (a.den : Int)

/-- Decide a < b by cross-multiplication (denominators are positive). -/
def Frac.blt (a b : Frac) : Bool := a.num * (b.den : Int) < b.num * (a.den : Int)

/-- Floor of a nonnegative fraction, as a natural number. -/
def Frac.floorNat (a : Frac) : Nat := a.num.toNat / a.den

/-- A fraction denotes an integer iff its reduced denominator is 1. -/
def Frac.isInt (a : Frac) : Bool := a.den = 1

/-- A cell of the table: the missing marker (NaN/NaT/pd.NA), a number, a
string, or a datetime (an abstract point on the timeline). -/
inductive Value where
  | missing
  | num (q : Frac)
  | str (s : String)
  | dt (t : Frac)
deriving DecidableEq

/-- Column dtypes distinguished by the pipeline: `int64`/`float64` (the two
dtypes stage 1 treats as numeric), the nullable `Int64` produced by the
integer coercion, `datetime64`, and `object`. -/
inductive DType where
  | int64
  | float64
  | nInt64
  | datetime64
  | obj
deriving DecidableEq

/-- The value a schema entry's "type" key can hold.  The source compares it
with the string "datetime" but with the Python builtin types `int` and
`float` (lines 51-56), so a tag is either some string or one of those two
builtins. -/
inductive TypeTag where
  | name (s : String)
  | pyInt
  | pyFloat
deriving DecidableEq

/-- A compiled regular expression, modelled by its `re.match` behaviour:
does the expression match at the start of the given string? -/
structure RePattern where
  matchesAtStart : String → Bool

/-- One schema entry (the dict of rules for a column).  `type := none` models
a dict with no "type" key, so that `rules["type"]` raises `KeyError`. -/
structure ColumnRule where
  type : Option TypeTag := none
  required : Bool := false
  min_value : Option Frac := none
  max_value : Option Frac := none
  pattern : Option RePattern := none

/-- The schema: ordered association list of column name to rules (Python dicts
iterate in insertion order). -/
abbrev Schema := List (String × ColumnRule)

/-- A dataframe column: dtype marker plus the ordered cell values. -/
structure Col where
  dtype : DType
  vals : List Value
deriving DecidableEq

/-- A dataframe: ordered association list of column name to column.  All
columns of a well-formed frame have the same length (the row count). -/
abbrev Frame := List (String × Col)

def getCol : Frame → String → Option Col
  | [], _ => none
  | (n, col) :: rest, c => if n = c then some col else getCol rest c

def setCol : Frame → String → Col → Frame
  | [], _, _ => []
  | (n, col) :: rest, c, newCol =>
    if n = c then (n, newCol) :: rest else (n, col) :: setCol rest c newCol

/-- len(df): the row count, read off the first column (0 for a column-less
frame). -/
def nRows : Frame → Nat
  | [] => 0
  | (_, col) :: _ => col.vals.length

def namesOf (f : Frame) : List String := f.map (fun p => p.1)

/-- Keep the values at the `true` positions of the mask (row selection). -/
def applyMask : List Bool → List Value → List Value
  | true :: m, v :: vs => v :: applyMask m vs
  | false :: m, _ :: vs => applyMask m vs
  | _, _ => []

/-- Apply one row mask to every column: `df[mask]`. -/
def filterMask (m : List Bool) (f : Frame) : Frame :=
  f.map (fun p => (p.1, Col.mk p.2.dtype (applyMask m p.2.vals)))

def isMissing : Value → Bool
  | .missing => true
  | _ => false

/-- df[column].isnull().sum() -/
def countMissing (vals : List Value) : Nat := vals.countP (fun v => isMissing v)

/-- The row mask of `df.dropna(subset=[column])`: keep the rows whose value in
the given column is not missing. -/
def keepMask (vals : List Value) : List Bool := vals.map (fun v => !isMissing v)

/-- Well-formedness: every column has the frame's row count. -/
def wfF (f : Frame) : Bool := f.all (fun p => p.2.vals.length == nRows f)

def digitsToNat : List Char → Nat → Option Nat
  | [], acc => some acc
  | ch :: rest, acc =>
    if ch.isDigit then digitsToNat rest (acc * 10 + (ch.toNat - 48)) else none

def spanDigits : List Char → List Char × List Char
  | [] => ([], [])
  | ch :: rest =>
    if ch.isDigit then
      let r := spanDigits rest
      (ch :: r.1, r.2)
    else ([], ch :: rest)

/-- integer-part digits, fraction-part digits → their rational value. -/
def fracOfDigits (ip fp : List Char) : Option Frac :=
  if ip.isEmpty && fp.isEmpty then none
  else
    match digitsToNat ip 0, digitsToNat fp 0 with
    | some i, some fnum => some (mkFrac ((i * 10 ^ fp.length + fnum : Nat) : Int) (10 ^ fp.length))
    | _, _ => none

def parseUnsignedNum (cs : List Char) : Option Frac :=
  let (ip, rest) := spanDigits cs
  match rest with
  | [] => if ip.isEmpty then none else fracOfDigits ip []
  | '.' :: fp =>
    let (fd, rest2) := spanDigits fp
    if rest2.isEmpty then fracOfDigits ip fd else none
  | _ => none

/-- Model of numeric string parsing inside `pd.to_numeric`: an optional sign
followed by a plain decimal literal; anything else is unparseable. -/
def parseNumString (s : String) : Option Frac :=
  match s.data with
  | '-' :: cs => (parseUnsignedNum cs).map Frac.neg
  | '+' :: cs => parseUnsignedNum cs
  | cs => parseUnsignedNum cs

def splitOnChar (sep : Char) : List Char → List (List Char)
  | [] => [[]]
  | ch :: rest =>
    let r := splitOnChar sep rest
    if ch = sep then [] :: r
    else
      match r with
      | [] => [[ch]]
      | g :: gs => (ch :: g) :: gs

def parseNatChars (cs : List Char) : Option Nat :=
  if cs.isEmpty then none else digitsToNat cs 0

/-- Model of date string parsing inside `pd.to_datetime`: ISO `YYYY-MM-DD`
dates, encoded injectively onto the abstract timeline; other strings are
unparseable.  No claim depends on which date strings parse. -/
def parseDateString (s : String) : Option Frac :=
  match splitOnChar '-' s.data with
  | [ys, ms, ds] =>
    match parseNatChars ys, parseNatChars ms, parseNatChars ds with
    | some y, some m, some d =>
      if 1 ≤ m && m ≤ 12 && 1 ≤ d && d ≤ 31 then
        some (Frac.ofNat (y * 372 + (m - 1) * 31 + (d - 1)))
      else none
    | _, _, _ => none
  | _ => none

/-- One cell under `pd.to_numeric(..., errors="coerce")`: numbers stay,
datetimes become their timeline number, strings parse or become missing. -/
def toNumericVal : Value → Value
  | .missing => .missing
  | .num q => .num q
  | .dt t => .num t
  | .str s =>
    match parseNumString s with
    | some q => .num q
    | none => .missing

/-- One cell under `pd.to_datetime(..., errors="coerce")`. -/
def toDatetimeVal : Value → Value
  | .missing => .missing
  | .dt t => .dt t
  | .num q => .dt q
  | .str s =>
    match parseDateString s with
    | some t => .dt t
    | none => .missing

/-- Is the cell a number that is not an integer?  Such a cell makes
`.astype("Int64")` raise. -/
def isNonIntegralNum : Value → Bool
  | .num q => !q.isInt
  | _ => false

/-- The body of the `try` block of `_validate_data_types` for one column
(lines 51-56): the coercion chosen by the declared type tag.  Note the source
compares the tag against the STRING "datetime" but against the Python BUILTIN
TYPES int and float; a string tag "integer" or "float" therefore selects no
coercion and falls through to the final else.  `.error` models an exception
thrown inside the try block. -/
def coerceCol (t : TypeTag) (c : Col) : Except String Col :=
  if t = .name "datetime" then
    .ok (Col.mk .datetime64 (c.vals.map toDatetimeVal))
  else if t = .pyInt then
    let nv := c.vals.map toNumericVal
    if nv.any isNonIntegralNum then
      .error "cannot safely cast non-equivalent values to Int64"
    else .ok (Col.mk .nInt64 nv)
  else if t = .pyFloat then
    .ok (Col.mk .float64 (c.vals.map toNumericVal))
  else .ok c

/-- Insertion sort on fractions (ascending). -/
def insertSorted (x : Frac) : List Frac → List Frac
  | [] => [x]
  | y :: ys => if x.ble y then x :: y :: ys else y :: insertSorted x ys

def sortF (l : List Frac) : List Frac := l.foldr insertSorted []

/-- The numeric (non-missing) entries of a column, in order; quantiles and
medians are computed over these, as pandas skips NaN. -/
def numsOf (vals : List Value) : List Frac :=
  vals.filterMap (fun v =>
    match v with
    | .num q => some q
    | _ => none)

/-- `Series.quantile(p)` with the default linear interpolation: on the sorted
values v₀ ≤ ... ≤ v_{n-1}, the quantile sits at position p·(n-1) and is
interpolated linearly between the two neighbouring values.  `none` on an
empty list (pandas returns NaN there). -/
def quantileF (l : List Frac) (p : Frac) : Option Frac :=
  let s := sortF l
  if s.isEmpty then none
  else
    let n := s.length
    let pos := p.mul (Frac.ofNat (n - 1))
    let i := pos.floorNat
    let fr := pos.sub (Frac.ofNat i)
    let lo := s.getD i Frac.zero
    let hi := s.getD (min (i + 1) (n - 1)) Frac.zero
    some (lo.add (fr.mul (hi.sub lo)))

/-- `Series.median()` = quantile 1/2 (pandas median of an even count is the
mean of the two middle values, which is what linear interpolation gives). -/
def medianF (l : List Frac) : Option Frac := quantileF l (mkFrac 1 2)

/-- Replace missing cells by the given fill value (`Series.fillna`). -/
def fillVals (fill : Value) (vals : List Value) : List Value :=
  vals.map (fun v => if isMissing v then fill else v)

/-- The two log channels of the pipeline object: `self.errors` (the cleaning
log the GUI shows) and the messages sent to `self.logger.error` by the
`except` branch of `_validate_data_types`. -/
structure Logs where
  errors : List String
  loggerErrors : List String
deriving DecidableEq

def noLogs : Logs := Logs.mk [] []

def missingMsg (count : Nat) (column : String) : String :=
  "Removed " ++ toString count ++ " rows with missing " ++ column

def invalidMsg (count : Nat) (column : String) : String :=
  "Removed " ++ toString count ++ " rows with invalid " ++ column

def constraintMsg (count : Nat) (column : String) : String :=
  "Removed " ++ toString count ++ " rows failing " ++ column ++ " constraints"

def outlierMsg (count : Nat) (column : String) : String :=
  "Removed " ++ toString count ++ " outliers from " ++ column

def coercionErrMsg (column e : String) : String :=
  "Type conversion error for " ++ column ++ ": " ++ e

/-- Stage 1 (`_handle_missing_values`, lines 32-43), one schema column.
If the column is absent from the frame it is skipped.  required = True: count
the missing cells; if positive, append the log entry and drop those rows from
every column.  required = False: if the dtype is int64 or float64, fill
missing cells with the column's median (a no-op when the column has no
numeric values, since the median of an empty selection is NaN); otherwise
fill them with the string "Unknown" (pandas upcasts the dtype to object when
such a fill actually writes, and leaves the column untouched when there is
nothing to fill). -/
def handle_missing_column (f : Frame) (column : String) (rules : ColumnRule) (lg : Logs) :
    Frame × Logs :=
  match getCol f column with
  | none => (f, lg)
  | some c =>
    if rules.required then
      let missing_count := countMissing c.vals
      if 0 < missing_count then
        (filterMask (keepMask c.vals) f,
         Logs.mk (lg.errors ++ [missingMsg missing_count column]) lg.loggerErrors)
      else (f, lg)
    else
      if c.dtype = .int64 ∨ c.dtype = .float64 then
        match medianF (numsOf c.vals) with
        | some m => (setCol f column (Col.mk c.dtype (fillVals (.num m) c.vals)), lg)
        | none => (f, lg)
      else
        if 0 < countMissing c.vals then
          (setCol f column (Col.mk .obj (fillVals (.str "Unknown") c.vals)), lg)
        else (f, lg)

/-- Stage 1 driver: iterate the schema in insertion order. -/
def handle_missing_values : Schema → Frame → Logs → Frame × Logs
  | [], f, lg => (f, lg)
  | (column, rules) :: rest, f, lg =>
    let r := handle_missing_column f column rules lg
    handle_missing_values rest r.1 r.2

/-- Stage 2 (`_validate_data_types`, lines 46-63), one schema column.
`rules["type"]` is evaluated OUTSIDE the try block (line 49), so a schema
entry without a "type" key raises an uncaught KeyError.  Inside the try
block, the tag-selected coercion runs and is assigned; then ALL missing
cells of the (possibly coerced) column are counted and, if any, logged as
invalid and dropped.  If the coercion raises, the except branch logs to
`logger.error`, the column keeps its previous contents, and the
count-and-drop lines are skipped (they sit inside the try block). -/
def validate_types_column (f : Frame) (column : String) (rules : ColumnRule) (lg : Logs) :
    Except String (Frame × Logs) :=
  match getCol f column with
  | none => .ok (f, lg)
  | some c =>
    match rules.type with
    | none => .error ("KeyError: type missing in rules for " ++ column)
    | some expected_type =>
      match coerceCol expected_type c with
      | .error e =>
        .ok (f, Logs.mk lg.errors (lg.loggerErrors ++ [coercionErrMsg column e]))
      | .ok c2 =>
        let f2 := setCol f column c2
        let invalid_count := countMissing c2.vals
        if 0 < invalid_count then
          .ok (filterMask (keepMask c2.vals) f2,
               Logs.mk (lg.errors ++ [invalidMsg invalid_count column]) lg.loggerErrors)
        else .ok (f2, lg)

/-- Stage 2 driver. -/
def validate_data_types : Schema → Frame → Logs → Except String (Frame × Logs)
  | [], f, lg => .ok (f, lg)
  | (column, rules) :: rest, f, lg =>
    match validate_types_column f column rules lg with
    | .error e => .error e
    | .ok (f1, lg1) => validate_data_types rest f1 lg1

/-- `df[column] >= bound` for one cell: a number compares, NaN is False, and
any other cell raises TypeError (pandas object comparison with a number). -/
def cmpGe (b : Frac) (v : Value) : Except String Bool :=
  match v with
  | .num q => .ok (b.ble q)
  | .missing => .ok false
  | _ => .error "TypeError: not supported between instances"

/-- `df[column] <= bound` for one cell. -/
def cmpLe (b : Frac) (v : Value) : Except String Bool :=
  match v with
  | .num q => .ok (q.ble b)
  | .missing => .ok false
  | _ => .error "TypeError: not supported between instances"

/-- Evaluate a whole boolean row mask, propagating a cell's exception. -/
def maskM (p : Value → Except String Bool) : List Value → Except String (List Bool)
  | [] => .ok []
  | v :: vs =>
    match p v, maskM p vs with
    | .ok b, .ok m => .ok (b :: m)
    | .error e, _ => .error e
    | _, .error e => .error e

/-- `df = df[df[column] >= b]` (resp. `<=`): filter all rows by the mask of
the named column.  Identity when the bound is absent from the rules. -/
def boundFilter (cmp : Frac → Value → Except String Bool) (ob : Option Frac)
    (column : String) (f : Frame) : Except String Frame :=
  match ob with
  | none => .ok f
  | some b =>
    match getCol f column with
    | none => .ok f
    | some c =>
      match maskM (cmp b) c.vals with
      | .ok m => .ok (filterMask m f)
      | .error e => .error e

/-- `df[column].astype(str)` for one cell: pandas renders NaN as the string
"nan" — this is why the `na=False` of `str.match` never fires.  The numeric
renderings are placeholders; no claim depends on them. -/
def pyStr : Value → String
  | .missing => "nan"
  | .str s => s
  | .num q => toString q.num ++ "/" ++ toString q.den
  | .dt t => toString t.num ++ "/" ++ toString t.den

/-- The pattern row mask: `df[column].astype(str).str.match(pattern, na=False)`.
After astype(str) no cell is NaN any more, so na=False is inert and a missing
cell matches exactly when the expression matches "nan". -/
def patternMask (pt : RePattern) (vals : List Value) : List Bool :=
  vals.map (fun v => pt.matchesAtStart (pyStr v))

/-- The pattern filter runs only when the rules have a "pattern" key and the
column's dtype is object (line 73). -/
def patternFilter (op : Option RePattern) (column : String) (f : Frame) : Frame :=
  match op with
  | none => f
  | some pt =>
    match getCol f column with
    | none => f
    | some c => if c.dtype = .obj then filterMask (patternMask pt c.vals) f else f

/-- Stage 3 (`_apply_constraints`, lines 65-79), one schema column: record the
row count, apply the min_value filter, the max_value filter, then the pattern
filter, and log one combined entry if the three filters together removed any
rows. -/
def apply_constraints_column (f : Frame) (column : String) (rules : ColumnRule) (lg : Logs) :
    Except String (Frame × Logs) :=
  match getCol f column with
  | none => .ok (f, lg)
  | some _ =>
    let initial_count := nRows f
    match boundFilter cmpGe rules.min_value column f with
    | .error e => .error e
    | .ok f1 =>
      match boundFilter cmpLe rules.max_value column f1 with
      | .error e => .error e
      | .ok f2 =>
        let f3 := patternFilter rules.pattern column f2
        let removed_count := initial_count - nRows f3
        if 0 < removed_count then
          .ok (f3, Logs.mk (lg.errors ++ [constraintMsg removed_count column]) lg.loggerErrors)
        else .ok (f3, lg)

/-- Stage 3 driver. -/
def apply_constraints : Schema → Frame → Logs → Except String (Frame × Logs)
  | [], f, lg => .ok (f, lg)
  | (column, rules) :: rest, f, lg =>
    match apply_constraints_column f column rules lg with
    | .error e => .error e
    | .ok (f1, lg1) => apply_constraints rest f1 lg1

/-- `df.select_dtypes(include=[np.number]).columns`: the names of the numeric
columns, in the table's column order (int64, float64 and the nullable Int64
all count as numeric). -/
def isNumericDType : DType → Bool
  | .int64 => true
  | .float64 => true
  | .nInt64 => true
  | _ => false

def numericColumns (f : Frame) : List String :=
  (f.filter (fun p => isNumericDType p.2.dtype)).map (fun p => p.1)

/-- `(col < lower) | (col > upper)` for one cell; NaN comparisons are False,
so a missing cell is never an outlier. -/
def isOutlierVal (lower upper : Frac) (v : Value) : Bool :=
  match v with
  | .num q => q.blt lower || upper.blt q
  | _ => false

def outlierMask (lower upper : Frac) (vals : List Value) : List Bool :=
  vals.map (isOutlierVal lower upper)

def countTrue (l : List Bool) : Nat := l.countP (fun b => b)

/-- lower_bound = Q1 - 1.5 * IQR -/
def iqrLower (q1 q3 : Frac) : Frac := q1.sub ((mkFrac 3 2).mul (q3.sub q1))

/-- upper_bound = Q3 + 1.5 * IQR -/
def iqrUpper (q1 q3 : Frac) : Frac := q3.add ((mkFrac 3 2).mul (q3.sub q1))

/-- Stage 4 (`_remove_outliers`, lines 81-95), one column: quartiles of the
column's current numeric values, IQR fence at 1.5·IQR, remove the strict
outliers and log if any.  An all-missing column has NaN quartiles, every
comparison with which is False, so nothing is removed. -/
def remove_outliers_column (f : Frame) (column : String) (lg : Logs) : Frame × Logs :=
  match getCol f column with
  | none => (f, lg)
  | some c =>
    match quantileF (numsOf c.vals) (mkFrac 1 4), quantileF (numsOf c.vals) (mkFrac 3 4) with
    | some q1, some q3 =>
      let outliers := outlierMask (iqrLower q1 q3) (iqrUpper q1 q3) c.vals
      let outlier_count := countTrue outliers
      if 0 < outlier_count then
        (filterMask (outliers.map (fun b => !b)) f,
         Logs.mk (lg.errors ++ [outlierMsg outlier_count column]) lg.loggerErrors)
      else (f, lg)
    | _, _ => (f, lg)

def schemaKeys (s : Schema) : List String := s.map (fun p => p.1)

/-- Stage 4 driver: iterate the numeric columns in the TABLE's column order
(not schema order), processing those whose name is a schema key. -/
def remove_outliers_loop (schema : Schema) : List String → Frame → Logs → Frame × Logs
  | [], f, lg => (f, lg)
  | column :: rest, f, lg =>
    if (schemaKeys schema).contains column then
      let r := remove_outliers_column f column lg
      remove_outliers_loop schema rest r.1 r.2
    else remove_outliers_loop schema rest f lg

def remove_outliers (schema : Schema) (f : Frame) (lg : Logs) : Frame × Logs :=
  remove_outliers_loop schema (numericColumns f) f lg

/-- The per-run counters and logs the caller reads off the pipeline object
after `clean_and_validate` (a fresh instance per run: `self.errors` starts
empty). -/
structure RunResult where
  total_rows : Nat
  cleaned_rows : Nat
  errors : List String
  loggerErrors : List String
deriving DecidableEq

/-- `clean_and_validate` (lines 19-29): record the row count, run the four
stages in sequence, record the cleaned row count.  `_generate_report` only
re-emits the log through the logger and does not alter any state the claims
mention.  `.error` is an exception propagating to the caller. -/
def clean_and_validate (schema : Schema) (df : Frame) : Except String (Frame × RunResult) :=
  let total_rows := nRows df
  let r1 := handle_missing_values schema df noLogs
  match validate_data_types schema r1.1 r1.2 with
  | .error e => .error e
  | .ok (f2, lg2) =>
    match apply_constraints schema f2 lg2 with
    | .error e => .error e
    | .ok (f3, lg3) =>
      let r4 := remove_outliers schema f3 lg3
      .ok (r4.1, RunResult.mk total_rows (nRows r4.1) r4.2.errors r4.2.loggerErrors)

/-- Did the run complete without an exception? -/
def runOk (r : Except String (Frame × RunResult)) : Bool :=
  match r with
  | .ok _ => true
  | .error _ => false

def runFrame (r : Except String (Frame × RunResult)) : Frame :=
  match r with
  | .ok p => p.1
  | .error _ => []

def runErrors (r : Except String (Frame × RunResult)) : List String :=
  match r with
  | .ok p => p.2.errors
  | .error _ => []

def runLoggerErrors (r : Except String (Frame × RunResult)) : List String :=
  match r with
  | .ok p => p.2.loggerErrors
  | .error _ => []

/-!  Specification-side vocabulary.  The definitions below are row-level
reformulations used to STATE properties of the column-mask implementation
above; the theorems connect the two. -/

/-- Row-level view of dropping rows by a key column: keep, in every other
column, exactly the entries at positions where the key column's value
satisfies `keep`. -/
def dropRowsBy (key : List Value) (keep : Value → Bool) (vals : List Value) : List Value :=
  (key.zip vals).filterMap (fun p => if keep p.1 then some p.2 else none)

/-- How many values of the coerced column are missing although they were not
missing before the coercion: the values that NEWLY became missing through
coercion (the spec's reading of the stage-2 count). -/
def countNewlyMissing (before after : List Value) : Nat :=
  ((before.zip after).filter (fun p => !isMissing p.1 && isMissing p.2)).length

/-- Well-formedness of a frame as a proposition. -/
def WFr (f : Frame) : Prop := ∀ p ∈ f, p.2.vals.length = nRows f

/-- Structural step relation: one pipeline operation never renames, adds or
reorders columns, keeps well-formedness, and never adds rows. -/
def stepOK (f g : Frame) : Prop :=
  namesOf g = namesOf f ∧ (wfF f = true → wfF g = true) ∧ nRows g ≤ nRows f

/-- Row-subset relation between frames: same columns, same dtypes, and every
column's values of `g` are a sublist of its values in `f` (rows only get
dropped).  Stages 3 and 4 relate input and output this way. -/
def frameSub (g f : Frame) : Prop :=
  namesOf g = namesOf f ∧
  ∀ column c c2, getCol f column = some c → getCol g column = some c2 →
    c2.dtype = c.dtype ∧ c2.vals.Sublist c.vals

/-- A cell on which the declared coercion acts as the identity (it is already
fully coerced), so a second pass over it changes nothing. -/
def valCoerceFixed (t : TypeTag) (v : Value) : Prop :=
  (t = .name "datetime" → toDatetimeVal v = v) ∧
  (t = .pyInt → toNumericVal v = v ∧ isNonIntegralNum v = false) ∧
  (t = .pyFloat → toNumericVal v = v)

/-- A dtype already produced by the declared coercion. -/
def dtypeFixed (t : TypeTag) (d : DType) : Prop :=
  (t = .name "datetime" → d = .datetime64) ∧
  (t = .pyInt → d = .nInt64) ∧
  (t = .pyFloat → d = .float64)

/-- A cell of a column that stage 2 has fully processed: not missing and
fixed by the declared coercion. -/
def valInvT (rules : ColumnRule) (v : Value) : Prop :=
  isMissing v = false ∧ (∀ t, rules.type = some t → valCoerceFixed t v)

/-- A column that stage 2 has fully processed under its schema entry: the
entry has a type key, the dtype is the one its coercion produces, and every
cell is non-missing and coercion-fixed. -/
def colInvT (rules : ColumnRule) (c : Col) : Prop :=
  rules.type.isSome = true ∧
  (∀ t, rules.type = some t → dtypeFixed t c.dtype) ∧
  ∀ v ∈ c.vals, valInvT rules v

/-- A cell passing every declared constraint of its schema entry. -/
def valInvC (rules : ColumnRule) (d : DType) (v : Value) : Prop :=
  (∀ b, rules.min_value = some b → cmpGe b v = .ok true) ∧
  (∀ b, rules.max_value = some b → cmpLe b v = .ok true) ∧
  (∀ pt, rules.pattern = some pt → d = .obj → pt.matchesAtStart (pyStr v) = true)

/-- A column whose remaining rows all pass stage 3's filters. -/
def colInvC (rules : ColumnRule) (c : Col) : Prop :=
  ∀ v ∈ c.vals, valInvC rules c.dtype v

/-- A fully cleaned column under its schema entry. -/
def colInv (rules : ColumnRule) (c : Col) : Prop :=
  colInvT rules c ∧ colInvC rules c

/-- A fully cleaned frame: every schema column present in the frame is fully
cleaned.  A successful run that caught no coercion failure leaves its output
in this state, which is what makes stages 1-3 of a second run silent. -/
def frameInv (schema : Schema) (f : Frame) : Prop :=
  ∀ column rules, (column, rules) ∈ schema → ∀ c, getCol f column = some c → colInv rules c

/-!  Concrete data used by the counterexamples and witnesses. -/

/-- Ten rows of one float64 column: seven 0s, two 1s and an extreme 100.
Removing 100 (the only first-pass outlier) collapses the recomputed IQR to
0, which turns the two 1s into second-pass outliers. -/
def c1DF : Frame :=
  [("x", Col.mk .float64
    [.num (Frac.ofNat 0), .num (Frac.ofNat 0), .num (Frac.ofNat 0), .num (Frac.ofNat 0),
     .num (Frac.ofNat 0), .num (Frac.ofNat 0), .num (Frac.ofNat 0), .num (Frac.ofNat 1),
     .num (Frac.ofNat 1), .num (Frac.ofNat 100)])]

/-- Schema for the idempotence counterexample: a plain string-tagged rule, so
stages 1-3 are no-ops on this data and only outlier removal acts. -/
def c1Schema : Schema := [("x", { type := some (.name "string") })]

def c1Out1 : Frame := runFrame (clean_and_validate c1Schema c1DF)

/-- The table and counters the first run on c1DF returns: 100 is the only
first-pass outlier (fence [-9/8, 15/8]). -/
def c1Out1F : Frame :=
  [("x", Col.mk .float64
    [.num (Frac.ofNat 0), .num (Frac.ofNat 0), .num (Frac.ofNat 0), .num (Frac.ofNat 0),
     .num (Frac.ofNat 0), .num (Frac.ofNat 0), .num (Frac.ofNat 0), .num (Frac.ofNat 1),
     .num (Frac.ofNat 1)])]

def c1Out1R : RunResult := RunResult.mk 10 9 ["Removed 1 outliers from x"] []

/-- The second run's output: on the 9 remaining rows both quartiles are 0,
the fence degenerates to [0, 0], and the two 1s are removed as outliers. -/
def c1Out2F : Frame :=
  [("x", Col.mk .float64
    [.num (Frac.ofNat 0), .num (Frac.ofNat 0), .num (Frac.ofNat 0), .num (Frac.ofNat 0),
     .num (Frac.ofNat 0), .num (Frac.ofNat 0), .num (Frac.ofNat 0)])]

def c1Out2R : RunResult := RunResult.mk 9 7 ["Removed 2 outliers from x"] []

/-- A schema entry whose rules dict has no "type" key. -/
def c2Rule : ColumnRule := { required := false }

def c2Schema : Schema := [("a", c2Rule)]

def c2Col : Col := Col.mk .float64 [.num (Frac.ofNat 1)]

def c2DF : Frame := [("a", c2Col)]

/-- A column rule declaring the STRING tag "integer" (the data model's tag),
which the source's `elif expected_type == int` does not recognise. -/
def c4Rule : ColumnRule := { type := some (.name "integer") }

def c4DF : Frame := [("a", Col.mk .obj [.str "abc", .num (Frac.ofNat 2)])]

/-- Witness data for the amended C4: a pyInt-tagged column whose parsed
values are all integral, so the Int64 conversion succeeds. -/
def c4WCol : Col := Col.mk .obj [.str "abc", .str "7"]

/-- Witness data for the amended C2: a pyInt-tagged column holding the
non-integral number 3/2, on which `.astype("Int64")` raises, and the raise
is caught. -/
def c2WRule : ColumnRule := { type := some TypeTag.pyInt }

def c2WCol : Col := Col.mk .float64 [.num (mkFrac 3 2)]

def c2WDF : Frame := [("a", c2WCol)]

/-- A string-tagged column that already contains a missing value when stage 2
reaches it (as stage 1 leaves behind for an all-missing numeric column):
nothing newly becomes missing through coercion, yet the stage logs and
drops. -/
def c5Rule : ColumnRule := { type := some (.name "string") }

def c5ColA : Col := Col.mk .float64 [.missing]

def c5DF : Frame :=
  [("a", c5ColA),
   ("b", Col.mk .float64 [.num (Frac.ofNat 7)])]

/-- Witness data for the amended C5: a pyInt-tagged column where "abc" fails
numeric parsing, becomes missing and is dropped with the logged count. -/
def c5WRule : ColumnRule := { type := some TypeTag.pyInt }

def c5WCol : Col := Col.mk .obj [.str "abc", .num (Frac.ofNat 2)]

def c5WDF : Frame := [("a", c5WCol)]

def c6Rule : ColumnRule := { type := some (.name "string"), required := true }

/-- Ten rows, three of them missing in the required column "a". -/
def c6Col : Col :=
  Col.mk .obj
    [.str "r1", .missing, .str "r3", .str "r4", .missing, .str "r6", .str "r7",
     .missing, .str "r9", .str "r10"]

def c6ColB : Col :=
  Col.mk .float64
    [.num (Frac.ofNat 1), .num (Frac.ofNat 2), .num (Frac.ofNat 3), .num (Frac.ofNat 4),
     .num (Frac.ofNat 5), .num (Frac.ofNat 6), .num (Frac.ofNat 7), .num (Frac.ofNat 8),
     .num (Frac.ofNat 9), .num (Frac.ofNat 10)]

def c6DF : Frame := [("a", c6Col), ("b", c6ColB)]

/-- The spec's example [1, 2, missing, 4] for the numeric median fill. -/
def c7Rule : ColumnRule := { type := some (.name "string"), required := false }

def c7Col : Col :=
  Col.mk .float64 [.num (Frac.ofNat 1), .num (Frac.ofNat 2), .missing, .num (Frac.ofNat 4)]

def c7DF : Frame := [("a", c7Col)]

def c7ColB : Col := Col.mk .obj [.str "u", .missing]

def c7DFobj : Frame := [("b", c7ColB)]

/-- A pattern matching exactly the string "nan". -/
def c8Pat : RePattern := RePattern.mk (fun s => s == "nan")

def c8Rule : ColumnRule := { type := some (.name "string"), pattern := some c8Pat }

def c8DF : Frame := [("a", Col.mk .obj [.missing, .str "hello"])]

/-- The spec's outlier example [10, 12, 11, 13, 1000]. -/
def c9Col : Col :=
  Col.mk .float64
    [.num (Frac.ofNat 10), .num (Frac.ofNat 12), .num (Frac.ofNat 11),
     .num (Frac.ofNat 13), .num (Frac.ofNat 1000)]

def c9DF : Frame := [("x", c9Col)]

def c9Schema : Schema := [("x", { type := some (.name "string") })]

def c10Rule : ColumnRule := { type := some (.name "string"), min_value := some (Frac.ofNat 0) }

def c10Col : Col := Col.mk .float64 [.num (Frac.ofNat 5), .missing, .num (Frac.ofNat 3)]

def c10DF : Frame := [("a", c10Col)]

def c3Schema : Schema :=
  [("a", { type := some (.name "string"), required := true, min_value := some (Frac.ofNat 0) })]

def c3DF : Frame :=
  [("a", Col.mk .float64 [.num (Frac.ofNat 4), .missing, .num (Frac.neg (Frac.ofNat 2))])]

/-- The frame and counters `clean_and_validate c3Schema c3DF` returns: the
missing value is dropped by stage 1, the value -2 fails the min_value 0
constraint in stage 3, and the single surviving row 4 is its own quartile, so
stage 4 removes nothing. -/
def c3OutFrame : Frame := [("a", Col.mk .float64 [.num (Frac.ofNat 4)])]

def c3OutRes : RunResult :=
  RunResult.mk 3 1 ["Removed 1 rows with missing a", "Removed 1 rows failing a constraints"] []

/-!  General lemmas about masks, frames and well-formedness. -/

theorem list_map_id_of_mem {α : Type} {l : List α} {g : α → α} (h : ∀ x ∈ l, g x = x) :
    l.map g = l := by
  induction l with
  | nil => rfl
  | cons a t ih =>
    have ha : g a = a := h a (by simp)
    have ht : t.map g = t := ih (fun x hx => h x (by simp [hx]))
    simp [ha, ht]

theorem applyMask_nil_vals (m : List Bool) : applyMask m [] = [] := by
  cases m with
  | nil => rfl
  | cons b t => cases b <;> rfl

theorem applyMask_nil_mask (l : List Value) : applyMask [] l = [] := by
  cases l <;> rfl

theorem applyMask_cons_true (m : List Bool) (v : Value) (vs : List Value) :
    applyMask (true :: m) (v :: vs) = v :: applyMask m vs := rfl

theorem applyMask_cons_false (m : List Bool) (v : Value) (vs : List Value) :
    applyMask (false :: m) (v :: vs) = applyMask m vs := rfl

theorem applyMask_sublist : ∀ (m : List Bool) (l : List Value), (applyMask m l).Sublist l := by
  intro m l
  induction l generalizing m with
  | nil => rw [applyMask_nil_vals]
  | cons v vs ih =>
    cases m with
    | nil => rw [applyMask_nil_mask]; exact List.nil_sublist _
    | cons b t =>
      cases b with
      | true => exact List.Sublist.cons₂ v (ih t)
      | false => exact List.Sublist.cons v (ih t)

theorem applyMask_length_le (m : List Bool) (l : List Value) :
    (applyMask m l).length ≤ l.length :=
  (applyMask_sublist m l).length_le

theorem mem_applyMask {m : List Bool} {l : List Value} {v : Value}
    (h : v ∈ applyMask m l) : v ∈ l :=
  (applyMask_sublist m l).subset h

theorem applyMask_length_eq : ∀ (m : List Bool) (l1 l2 : List Value),
    l1.length = l2.length → (applyMask m l1).length = (applyMask m l2).length := by
  intro m
  induction m with
  | nil => intro l1 l2 _; rw [applyMask_nil_mask, applyMask_nil_mask]
  | cons b t ih =>
    intro l1 l2 h
    cases l1 with
    | nil => cases l2 with
      | nil => rfl
      | cons y ys => simp at h
    | cons x xs =>
      cases l2 with
      | nil => simp at h
      | cons y ys =>
        have h2 : xs.length = ys.length := by simpa using h
        cases b with
        | true => simp [applyMask_cons_true, ih xs ys h2]
        | false => simp [applyMask_cons_false, ih xs ys h2]

theorem applyMask_map_keep (keep : Value → Bool) :
    ∀ (key vals : List Value), applyMask (key.map keep) vals = dropRowsBy key keep vals := by
  intro key
  induction key with
  | nil => intro vals; rw [List.map_nil, applyMask_nil_mask]; rfl
  | cons k ks ih =>
    intro vals
    cases vals with
    | nil =>
      rw [applyMask_nil_vals]
      cases h : keep k <;> rfl
    | cons v vs =>
      have base := ih vs
      cases h : keep k with
      | true =>
        simp [applyMask, dropRowsBy, List.zip_cons_cons, List.filterMap_cons, h, base]
      | false =>
        simp [applyMask, dropRowsBy, List.zip_cons_cons, List.filterMap_cons, h, base]

theorem dropRowsBy_self (keep : Value → Bool) :
    ∀ (key : List Value), dropRowsBy key keep key = key.filter keep := by
  intro key
  induction key with
  | nil => rfl
  | cons k ks ih =>
    have base := ih
    unfold dropRowsBy at base ⊢
    cases h : keep k with
    | true =>
      simp [List.zip_cons_cons, List.filterMap_cons, h, List.filter_cons, base]
    | false =>
      simp [List.zip_cons_cons, List.filterMap_cons, h, List.filter_cons, base]

theorem applyMask_replicate_true : ∀ (l : List Value) (n : Nat), l.length ≤ n →
    applyMask (List.replicate n true) l = l := by
  intro l
  induction l with
  | nil => intro n _; exact applyMask_nil_vals _
  | cons v vs ih =>
    intro n h
    cases n with
    | zero => simp at h
    | succ k =>
      have h2 : vs.length ≤ k := by simpa using h
      simp [List.replicate, applyMask, ih k h2]

theorem countP_keep_add_missing (vals : List Value) :
    vals.countP (fun v => !isMissing v) + countMissing vals = vals.length := by
  induction vals with
  | nil => rfl
  | cons v vs ih =>
    cases h : isMissing v <;>
      simp [countMissing, List.countP_cons, h] at ih ⊢ <;> omega

theorem countMissing_eq_zero_iff (vals : List Value) :
    countMissing vals = 0 ↔ ∀ v ∈ vals, isMissing v = false := by
  unfold countMissing
  rw [List.countP_eq_zero]
  constructor
  · intro h v hv
    have := h v hv
    simpa using this
  · intro h v hv
    simp [h v hv]

theorem fillVals_of_no_missing {vals : List Value} {x : Value}
    (h : ∀ v ∈ vals, isMissing v = false) : fillVals x vals = vals := by
  apply list_map_id_of_mem
  intro v hv
  simp [h v hv]

theorem filter_keep_of_no_missing {vals : List Value}
    (h : ∀ v ∈ vals, isMissing v = false) :
    vals.filter (fun v => !isMissing v) = vals := by
  rw [List.filter_eq_self]
  intro v hv
  simp [h v hv]

theorem maskM_congr_map {p : Value → Except String Bool} {q : Value → Bool} :
    ∀ {vals : List Value}, (∀ v ∈ vals, p v = .ok (q v)) →
    maskM p vals = .ok (vals.map q) := by
  intro vals
  induction vals with
  | nil => intro _; rfl
  | cons v vs ih =>
    intro h
    have hv : p v = .ok (q v) := h v (by simp)
    have hvs := ih (fun w hw => h w (by simp [hw]))
    simp [maskM, hv, hvs]

theorem maskM_ok_applyMask_true {p : Value → Except String Bool} :
    ∀ {vals : List Value} {m : List Bool}, maskM p vals = .ok m →
    ∀ v ∈ applyMask m vals, p v = .ok true := by
  intro vals
  induction vals with
  | nil =>
    intro m _ v hv
    rw [applyMask_nil_vals] at hv
    simp at hv
  | cons w ws ih =>
    intro m hm v hv
    rcases hp : p w with e | b
    · rw [maskM, hp] at hm; simp at hm
    · rcases hms : maskM p ws with e | m2
      · rw [maskM, hp, hms] at hm; cases b <;> simp at hm
      · rw [maskM, hp, hms] at hm
        have hmeq : m = b :: m2 := by cases b <;> simpa using hm.symm
        subst hmeq
        cases b with
        | true =>
          rcases (by simpa [applyMask] using hv : v = w ∨ v ∈ applyMask m2 ws) with h1 | h2
          · subst h1; exact hp
          · exact ih hms v h2
        | false => exact ih hms v (by simpa [applyMask] using hv)

theorem getCol_filterMask (m : List Bool) : ∀ (f : Frame) (c : String),
    getCol (filterMask m f) c
      = Option.map (fun col => Col.mk col.dtype (applyMask m col.vals)) (getCol f c) := by
  intro f
  induction f with
  | nil => intro c; rfl
  | cons p rest ih =>
    intro c
    obtain ⟨n, col⟩ := p
    by_cases h : n = c
    · simp [filterMask, getCol, h]
    · simpa [filterMask, getCol, h] using ih c

theorem namesOf_filterMask (m : List Bool) (f : Frame) :
    namesOf (filterMask m f) = namesOf f := by
  simp [filterMask, namesOf]

theorem nRows_filterMask_le (m : List Bool) (f : Frame) :
    nRows (filterMask m f) ≤ nRows f := by
  cases f with
  | nil => exact Nat.le_refl _
  | cons p rest => exact applyMask_length_le m p.2.vals

theorem getCol_setCol_self : ∀ (f : Frame) (c : String) (col c0 : Col),
    getCol f c = some c0 → getCol (setCol f c col) c = some col := by
  intro f
  induction f with
  | nil => intro c col c0 h; simp [getCol] at h
  | cons p rest ih =>
    intro c col c0 h
    obtain ⟨n, pcol⟩ := p
    by_cases hn : n = c
    · simp [setCol, getCol, hn]
    · rw [getCol] at h
      simp [hn] at h
      simpa [setCol, getCol, hn] using ih c col c0 h

theorem getCol_setCol_ne : ∀ (f : Frame) (c d : String) (col : Col), d ≠ c →
    getCol (setCol f c col) d = getCol f d := by
  intro f
  induction f with
  | nil => intro c d col _; rfl
  | cons p rest ih =>
    intro c d col hdc
    obtain ⟨n, pcol⟩ := p
    by_cases hn : n = c
    · have hnd : n ≠ d := fun h => hdc (h.symm.trans hn)
      rw [setCol, if_pos hn, getCol, getCol, if_neg hnd, if_neg hnd]
    · rw [setCol, if_neg hn, getCol, getCol]
      by_cases hd : n = d
      · rw [if_pos hd, if_pos hd]
      · rw [if_neg hd, if_neg hd, ih c d col hdc]

theorem setCol_absent : ∀ (f : Frame) (c : String) (col : Col),
    getCol f c = none → setCol f c col = f := by
  intro f
  induction f with
  | nil => intro c col _; rfl
  | cons p rest ih =>
    intro c col h
    obtain ⟨n, pcol⟩ := p
    rw [getCol] at h
    by_cases hn : n = c
    · simp [hn] at h
    · simp [hn] at h
      simp [setCol, hn, ih c col h]

theorem setCol_self : ∀ (f : Frame) (c : String) (col : Col),
    getCol f c = some col → setCol f c col = f := by
  intro f
  induction f with
  | nil => intro c col h; simp [getCol] at h
  | cons p rest ih =>
    intro c col h
    obtain ⟨n, pcol⟩ := p
    rw [getCol] at h
    by_cases hn : n = c
    · simp [hn] at h
      simp [setCol, hn, h]
    · simp [hn] at h
      simp [setCol, hn, ih c col h]

theorem namesOf_setCol : ∀ (f : Frame) (c : String) (col : Col),
    namesOf (setCol f c col) = namesOf f := by
  intro f
  induction f with
  | nil => intro c col; rfl
  | cons p rest ih =>
    intro c col
    obtain ⟨n, pcol⟩ := p
    by_cases hn : n = c
    · simp [setCol, namesOf, hn]
    · simpa [setCol, namesOf, hn] using ih c col

theorem nRows_setCol : ∀ (f : Frame) (c : String) (col c0 : Col),
    getCol f c = some c0 → col.vals.length = c0.vals.length →
    nRows (setCol f c col) = nRows f := by
  intro f
  induction f with
  | nil => intro c col c0 h _; simp [getCol] at h
  | cons p rest ih =>
    intro c col c0 h hlen
    obtain ⟨n, pcol⟩ := p
    rw [getCol] at h
    by_cases hn : n = c
    · simp [hn] at h
      simp [setCol, hn, nRows, hlen, h]
    · simp [setCol, hn, nRows]

theorem getCol_mem : ∀ (f : Frame) (c : String) (col : Col),
    getCol f c = some col → (c, col) ∈ f := by
  intro f
  induction f with
  | nil => intro c col h; simp [getCol] at h
  | cons p rest ih =>
    intro c col h
    obtain ⟨n, pcol⟩ := p
    rw [getCol] at h
    by_cases hn : n = c
    · simp [hn] at h
      simp [hn, h]
    · simp [hn] at h
      simp [ih c col h]

theorem mem_setCol : ∀ (f : Frame) (c : String) (col : Col) (p : String × Col),
    p ∈ setCol f c col → p ∈ f ∨ p = (c, col) := by
  intro f
  induction f with
  | nil => intro c col p h; simp [setCol] at h
  | cons q rest ih =>
    intro c col p h
    obtain ⟨n, qcol⟩ := q
    by_cases hn : n = c
    · rw [setCol, if_pos hn] at h
      rcases (by simpa using h) with h1 | h2
      · right; rw [h1, hn]
      · left; simp [h2]
    · rw [setCol, if_neg hn] at h
      rcases (by simpa using h) with h1 | h2
      · left; simp [h1]
      · rcases ih c col p h2 with h3 | h4
        · left; simp [h3]
        · right; exact h4

theorem getCol_isSome_congr : ∀ (f g : Frame), namesOf f = namesOf g →
    ∀ c, (getCol f c).isSome = (getCol g c).isSome := by
  intro f
  induction f with
  | nil =>
    intro g h c
    cases g with
    | nil => rfl
    | cons q rest => simp [namesOf] at h
  | cons p rest ih =>
    intro g h c
    cases g with
    | nil => simp [namesOf] at h
    | cons q grest =>
      obtain ⟨n, pcol⟩ := p
      obtain ⟨n2, qcol⟩ := q
      simp [namesOf] at h
      obtain ⟨hn, hrest⟩ := h
      subst hn
      by_cases hc : n = c
      · simp [getCol, hc]
      · simpa [getCol, hc] using ih grest (by simpa [namesOf] using hrest) c

theorem wfF_iff (f : Frame) : wfF f = true ↔ WFr f := by
  unfold wfF WFr
  rw [List.all_eq_true]
  constructor
  · intro h p hp
    simpa using h p hp
  · intro h p hp
    simp [h p hp]

theorem wf_filterMask {f : Frame} (m : List Bool) (h : wfF f = true) :
    wfF (filterMask m f) = true := by
  rw [wfF_iff] at h ⊢
  intro p hp
  rw [filterMask] at hp
  rcases List.mem_map.mp hp with ⟨q, hq, heq⟩
  subst heq
  cases f with
  | nil => simp at hq
  | cons r rest =>
    have hlen : q.2.vals.length = r.2.vals.length := by
      rw [h q hq]
      exact (h r (by simp)).symm
    show (applyMask m q.2.vals).length = nRows (filterMask m (r :: rest))
    have : nRows (filterMask m (r :: rest)) = (applyMask m r.2.vals).length := by
      simp [filterMask, nRows]
    rw [this]
    exact applyMask_length_eq m _ _ hlen

theorem wf_setCol {f : Frame} {c : String} {col c0 : Col} (h : wfF f = true)
    (hget : getCol f c = some c0) (hlen : col.vals.length = c0.vals.length) :
    wfF (setCol f c col) = true := by
  rw [wfF_iff] at h ⊢
  intro p hp
  have hrows : nRows (setCol f c col) = nRows f := nRows_setCol f c col c0 hget hlen
  rcases mem_setCol f c col p hp with h1 | h2
  · rw [hrows]; exact h p h1
  · subst h2
    rw [hrows]
    show col.vals.length = nRows f
    rw [hlen]
    exact h (c, c0) (getCol_mem f c c0 hget)

theorem stepOK_refl (f : Frame) : stepOK f f :=
  ⟨rfl, fun h => h, Nat.le_refl _⟩

theorem stepOK_trans {f g h : Frame} (h1 : stepOK f g) (h2 : stepOK g h) : stepOK f h :=
  ⟨h2.1.trans h1.1, fun hw => h2.2.1 (h1.2.1 hw), Nat.le_trans h2.2.2 h1.2.2⟩

theorem stepOK_filterMask (m : List Bool) (f : Frame) : stepOK f (filterMask m f) :=
  ⟨namesOf_filterMask m f, fun h => wf_filterMask m h, nRows_filterMask_le m f⟩

theorem stepOK_setCol {f : Frame} {c : String} {col c0 : Col}
    (hget : getCol f c = some c0) (hlen : col.vals.length = c0.vals.length) :
    stepOK f (setCol f c col) :=
  ⟨namesOf_setCol f c col, fun h => wf_setCol h hget hlen,
   Nat.le_of_eq (nRows_setCol f c col c0 hget hlen)⟩

theorem frameSub_refl (f : Frame) : frameSub f f := by
  refine ⟨rfl, ?_⟩
  intro column c c2 h1 h2
  rw [h1] at h2
  cases h2
  exact ⟨rfl, List.Sublist.refl _⟩

theorem frameSub_trans {f g h : Frame} (h1 : frameSub g f) (h2 : frameSub h g) :
    frameSub h f := by
  refine ⟨h2.1.trans h1.1, ?_⟩
  intro column c c2 hf hh
  have hsome : (getCol g column).isSome = true := by
    rw [getCol_isSome_congr g h h2.1.symm column, hh]
    rfl
  rcases Option.isSome_iff_exists.mp hsome with ⟨cg, hg⟩
  obtain ⟨hd1, hs1⟩ := h1.2 column c cg hf hg
  obtain ⟨hd2, hs2⟩ := h2.2 column cg c2 hg hh
  exact ⟨hd2.trans hd1, hs2.trans hs1⟩

theorem frameSub_filterMask (m : List Bool) (f : Frame) : frameSub (filterMask m f) f := by
  refine ⟨namesOf_filterMask m f, ?_⟩
  intro column c c2 hf hm
  rw [getCol_filterMask m f column, hf] at hm
  simp at hm
  rw [← hm]
  exact ⟨rfl, applyMask_sublist m c.vals⟩

/-!  Structural facts about the four stages: no stage renames or reorders
columns, breaks well-formedness, or adds rows; stages 3 and 4 only drop
rows. -/

theorem fillVals_length (x : Value) (vals : List Value) :
    (fillVals x vals).length = vals.length := List.length_map _ _

theorem stepOK_hmc (f : Frame) (column : String) (rules : ColumnRule) (lg : Logs) :
    stepOK f (handle_missing_column f column rules lg).1 := by
  unfold handle_missing_column
  cases hget : getCol f column with
  | none => exact stepOK_refl f
  | some c =>
    by_cases hreq : rules.required = true
    · simp only [hreq, if_true]
      by_cases hc : 0 < countMissing c.vals
      · simp only [if_pos hc]; exact stepOK_filterMask _ f
      · simp only [if_neg hc]; exact stepOK_refl f
    · simp only [hreq, if_false]
      by_cases hdt : c.dtype = DType.int64 ∨ c.dtype = DType.float64
      · simp only [if_pos hdt]
        cases hmed : medianF (numsOf c.vals) with
        | none => exact stepOK_refl f
        | some m => exact stepOK_setCol hget (fillVals_length _ _)
      · simp only [if_neg hdt]
        by_cases hc : 0 < countMissing c.vals
        · simp only [if_pos hc]
          exact stepOK_setCol hget (fillVals_length _ _)
        · simp only [if_neg hc]; exact stepOK_refl f

theorem stepOK_hmv : ∀ (schema : Schema) (f : Frame) (lg : Logs),
    stepOK f (handle_missing_values schema f lg).1 := by
  intro schema
  induction schema with
  | nil => intro f lg; exact stepOK_refl f
  | cons e rest ih =>
    intro f lg
    obtain ⟨column, rules⟩ := e
    exact stepOK_trans (stepOK_hmc f column rules lg) (ih _ _)

theorem coerceCol_length {t : TypeTag} {c c2 : Col} (h : coerceCol t c = .ok c2) :
    c2.vals.length = c.vals.length := by
  unfold coerceCol at h
  by_cases h1 : t = TypeTag.name "datetime"
  · rw [if_pos h1] at h
    cases h
    exact List.length_map _ _
  · rw [if_neg h1] at h
    by_cases h2 : t = TypeTag.pyInt
    · rw [if_pos h2] at h
      by_cases h3 : (c.vals.map toNumericVal).any isNonIntegralNum = true
      · rw [if_pos h3] at h; cases h
      · rw [if_neg h3] at h
        cases h
        exact List.length_map _ _
    · rw [if_neg h2] at h
      by_cases h4 : t = TypeTag.pyFloat
      · rw [if_pos h4] at h
        cases h
        exact List.length_map _ _
      · rw [if_neg h4] at h
        cases h
        rfl

theorem stepOK_vtc {f : Frame} {column : String} {rules : ColumnRule} {lg : Logs}
    {g : Frame} {lg2 : Logs} (h : validate_types_column f column rules lg = .ok (g, lg2)) :
    stepOK f g := by
  unfold validate_types_column at h
  cases hget : getCol f column with
  | none =>
    rw [hget] at h
    cases h
    exact stepOK_refl f
  | some c =>
    rw [hget] at h
    dsimp only at h
    cases htype : rules.type with
    | none => rw [htype] at h; cases h
    | some t =>
      rw [htype] at h
      dsimp only at h
      cases hco : coerceCol t c with
      | error e =>
        rw [hco] at h
        cases h
        exact stepOK_refl f
      | ok c2 =>
        rw [hco] at h
        dsimp only at h
        have hset : stepOK f (setCol f column c2) :=
          stepOK_setCol hget (coerceCol_length hco)
        by_cases hc : 0 < countMissing c2.vals
        · rw [if_pos hc] at h
          cases h
          exact stepOK_trans hset (stepOK_filterMask _ _)
        · rw [if_neg hc] at h
          cases h
          exact hset

theorem stepOK_vdt : ∀ (schema : Schema) (f : Frame) (lg : Logs) (g : Frame) (lg2 : Logs),
    validate_data_types schema f lg = .ok (g, lg2) → stepOK f g := by
  intro schema
  induction schema with
  | nil =>
    intro f lg g lg2 h
    cases h
    exact stepOK_refl f
  | cons e rest ih =>
    intro f lg g lg2 h
    obtain ⟨column, rules⟩ := e
    rw [validate_data_types] at h
    cases hstep : validate_types_column f column rules lg with
    | error e2 => rw [hstep] at h; cases h
    | ok p =>
      rw [hstep] at h
      exact stepOK_trans (stepOK_vtc hstep) (ih p.1 p.2 g lg2 h)

theorem boundFilter_cases {cmp : Frac → Value → Except String Bool} {ob : Option Frac}
    {column : String} {f g : Frame} (h : boundFilter cmp ob column f = .ok g) :
    g = f ∨ ∃ m, g = filterMask m f := by
  unfold boundFilter at h
  cases ob with
  | none => cases h; exact Or.inl rfl
  | some b =>
    dsimp only at h
    cases hget : getCol f column with
    | none => rw [hget] at h; cases h; exact Or.inl rfl
    | some c =>
      rw [hget] at h
      dsimp only at h
      cases hm : maskM (cmp b) c.vals with
      | error e => rw [hm] at h; cases h
      | ok m =>
        rw [hm] at h
        cases h
        exact Or.inr ⟨m, rfl⟩

theorem patternFilter_cases (op : Option RePattern) (column : String) (f : Frame) :
    patternFilter op column f = f ∨ ∃ m, patternFilter op column f = filterMask m f := by
  unfold patternFilter
  cases op with
  | none => exact Or.inl rfl
  | some pt =>
    cases hget : getCol f column with
    | none => exact Or.inl rfl
    | some c =>
      dsimp only
      by_cases hd : c.dtype = DType.obj
      · rw [if_pos hd]; exact Or.inr ⟨patternMask pt c.vals, rfl⟩
      · rw [if_neg hd]; exact Or.inl rfl

theorem stepOK_and_sub_of_cases {f g : Frame} (h : g = f ∨ ∃ m, g = filterMask m f) :
    stepOK f g ∧ frameSub g f := by
  rcases h with h1 | ⟨m, h2⟩
  · rw [h1]; exact ⟨stepOK_refl f, frameSub_refl f⟩
  · rw [h2]; exact ⟨stepOK_filterMask m f, frameSub_filterMask m f⟩

theorem stepOK_acc_column {f : Frame} {column : String} {rules : ColumnRule} {lg : Logs}
    {g : Frame} {lg2 : Logs} (h : apply_constraints_column f column rules lg = .ok (g, lg2)) :
    stepOK f g ∧ frameSub g f := by
  unfold apply_constraints_column at h
  cases hget : getCol f column with
  | none =>
    rw [hget] at h
    cases h
    exact ⟨stepOK_refl f, frameSub_refl f⟩
  | some c =>
    rw [hget] at h
    dsimp only at h
    cases h1 : boundFilter cmpGe rules.min_value column f with
    | error e => rw [h1] at h; cases h
    | ok f1 =>
      rw [h1] at h
      dsimp only at h
      cases h2 : boundFilter cmpLe rules.max_value column f1 with
      | error e => rw [h2] at h; cases h
      | ok f2 =>
        rw [h2] at h
        dsimp only at h
        have s1 := stepOK_and_sub_of_cases (boundFilter_cases h1)
        have s2 := stepOK_and_sub_of_cases (boundFilter_cases h2)
        have s3 := stepOK_and_sub_of_cases (patternFilter_cases rules.pattern column f2)
        have hg : g = patternFilter rules.pattern column f2 := by
          by_cases hc : 0 < nRows f - nRows (patternFilter rules.pattern column f2)
          · rw [if_pos hc] at h; cases h; rfl
          · rw [if_neg hc] at h; cases h; rfl
        subst hg
        exact ⟨stepOK_trans (stepOK_trans s1.1 s2.1) s3.1,
               frameSub_trans (frameSub_trans s1.2 s2.2) s3.2⟩

theorem stepOK_acc : ∀ (schema : Schema) (f : Frame) (lg : Logs) (g : Frame) (lg2 : Logs),
    apply_constraints schema f lg = .ok (g, lg2) → stepOK f g ∧ frameSub g f := by
  intro schema
  induction schema with
  | nil =>
    intro f lg g lg2 h
    cases h
    exact ⟨stepOK_refl f, frameSub_refl f⟩
  | cons e rest ih =>
    intro f lg g lg2 h
    obtain ⟨column, rules⟩ := e
    rw [apply_constraints] at h
    cases hstep : apply_constraints_column f column rules lg with
    | error e2 => rw [hstep] at h; cases h
    | ok p =>
      rw [hstep] at h
      have hs := stepOK_acc_column hstep
      have hr := ih p.1 p.2 g lg2 h
      exact ⟨stepOK_trans hs.1 hr.1, frameSub_trans hs.2 hr.2⟩

theorem stepOK_roc (f : Frame) (column : String) (lg : Logs) :
    stepOK f (remove_outliers_column f column lg).1 ∧
    frameSub (remove_outliers_column f column lg).1 f := by
  unfold remove_outliers_column
  cases hget : getCol f column with
  | none => exact ⟨stepOK_refl f, frameSub_refl f⟩
  | some c =>
    dsimp only
    cases h1 : quantileF (numsOf c.vals) (mkFrac 1 4) with
    | none =>
      cases h3 : quantileF (numsOf c.vals) (mkFrac 3 4) with
      | none => exact ⟨stepOK_refl f, frameSub_refl f⟩
      | some q3 => exact ⟨stepOK_refl f, frameSub_refl f⟩
    | some q1 =>
      cases h3 : quantileF (numsOf c.vals) (mkFrac 3 4) with
      | none => exact ⟨stepOK_refl f, frameSub_refl f⟩
      | some q3 =>
        dsimp only
        by_cases hc : 0 < countTrue (outlierMask (iqrLower q1 q3) (iqrUpper q1 q3) c.vals)
        · rw [if_pos hc]
          exact ⟨stepOK_filterMask _ f, frameSub_filterMask _ f⟩
        · rw [if_neg hc]
          exact ⟨stepOK_refl f, frameSub_refl f⟩

theorem stepOK_rol : ∀ (cols : List String) (schema : Schema) (f : Frame) (lg : Logs),
    stepOK f (remove_outliers_loop schema cols f lg).1 ∧
    frameSub (remove_outliers_loop schema cols f lg).1 f := by
  intro cols
  induction cols with
  | nil => intro schema f lg; exact ⟨stepOK_refl f, frameSub_refl f⟩
  | cons column rest ih =>
    intro schema f lg
    rw [remove_outliers_loop]
    by_cases hc : (schemaKeys schema).contains column = true
    · simp only [if_pos hc]
      have h1 := stepOK_roc f column lg
      have h2 := ih schema (remove_outliers_column f column lg).1
        (remove_outliers_column f column lg).2
      exact ⟨stepOK_trans h1.1 h2.1, frameSub_trans h1.2 h2.2⟩
    · simp only [if_neg hc]
      exact ih schema f lg

theorem stepOK_ro (schema : Schema) (f : Frame) (lg : Logs) :
    stepOK f (remove_outliers schema f lg).1 ∧ frameSub (remove_outliers schema f lg).1 f :=
  stepOK_rol (numericColumns f) schema f lg

/-!  The logger.error channel: stages 1, 3 and 4 never write to it; stage 2
appends to it exactly when a coercion raises. -/

theorem hmc_logger (f : Frame) (column : String) (rules : ColumnRule) (lg : Logs) :
    (handle_missing_column f column rules lg).2.loggerErrors = lg.loggerErrors := by
  unfold handle_missing_column
  cases getCol f column with
  | none => rfl
  | some c =>
    dsimp only
    by_cases hreq : rules.required = true
    · rw [if_pos hreq]
      by_cases hc : 0 < countMissing c.vals
      · rw [if_pos hc]
      · rw [if_neg hc]
    · rw [if_neg hreq]
      by_cases hdt : c.dtype = DType.int64 ∨ c.dtype = DType.float64
      · rw [if_pos hdt]
        cases medianF (numsOf c.vals) <;> rfl
      · rw [if_neg hdt]
        by_cases hc : 0 < countMissing c.vals
        · rw [if_pos hc]
        · rw [if_neg hc]

theorem hmv_logger : ∀ (schema : Schema) (f : Frame) (lg : Logs),
    (handle_missing_values schema f lg).2.loggerErrors = lg.loggerErrors := by
  intro schema
  induction schema with
  | nil => intro f lg; rfl
  | cons e rest ih =>
    intro f lg
    obtain ⟨column, rules⟩ := e
    rw [handle_missing_values]
    rw [ih]
    exact hmc_logger f column rules lg

theorem vtc_logger_extend {f : Frame} {column : String} {rules : ColumnRule} {lg : Logs}
    {g : Frame} {lg2 : Logs} (h : validate_types_column f column rules lg = .ok (g, lg2)) :
    ∃ ext, lg2.loggerErrors = lg.loggerErrors ++ ext := by
  unfold validate_types_column at h
  cases hget : getCol f column with
  | none => rw [hget] at h; cases h; exact ⟨[], by simp⟩
  | some c =>
    rw [hget] at h
    dsimp only at h
    cases htype : rules.type with
    | none => rw [htype] at h; cases h
    | some t =>
      rw [htype] at h
      dsimp only at h
      cases hco : coerceCol t c with
      | error e =>
        rw [hco] at h
        cases h
        exact ⟨[coercionErrMsg column e], rfl⟩
      | ok c2 =>
        rw [hco] at h
        dsimp only at h
        by_cases hc : 0 < countMissing c2.vals
        · rw [if_pos hc] at h; cases h; exact ⟨[], by simp⟩
        · rw [if_neg hc] at h; cases h; exact ⟨[], by simp⟩

theorem vdt_logger_extend : ∀ (schema : Schema) (f : Frame) (lg : Logs) (g : Frame)
    (lg2 : Logs), validate_data_types schema f lg = .ok (g, lg2) →
    ∃ ext, lg2.loggerErrors = lg.loggerErrors ++ ext := by
  intro schema
  induction schema with
  | nil => intro f lg g lg2 h; cases h; exact ⟨[], by simp⟩
  | cons e rest ih =>
    intro f lg g lg2 h
    obtain ⟨column, rules⟩ := e
    rw [validate_data_types] at h
    cases hstep : validate_types_column f column rules lg with
    | error e2 => rw [hstep] at h; cases h
    | ok p =>
      rw [hstep] at h
      obtain ⟨e1, he1⟩ := vtc_logger_extend hstep
      obtain ⟨e2, he2⟩ := ih p.1 p.2 g lg2 h
      exact ⟨e1 ++ e2, by rw [he2, he1, List.append_assoc]⟩

theorem acc_column_logger {f : Frame} {column : String} {rules : ColumnRule} {lg : Logs}
    {g : Frame} {lg2 : Logs} (h : apply_constraints_column f column rules lg = .ok (g, lg2)) :
    lg2.loggerErrors = lg.loggerErrors := by
  unfold apply_constraints_column at h
  cases hget : getCol f column with
  | none => rw [hget] at h; cases h; rfl
  | some c =>
    rw [hget] at h
    dsimp only at h
    cases h1 : boundFilter cmpGe rules.min_value column f with
    | error e => rw [h1] at h; cases h
    | ok f1 =>
      rw [h1] at h
      dsimp only at h
      cases h2 : boundFilter cmpLe rules.max_value column f1 with
      | error e => rw [h2] at h; cases h
      | ok f2 =>
        rw [h2] at h
        dsimp only at h
        by_cases hc : 0 < nRows f - nRows (patternFilter rules.pattern column f2)
        · rw [if_pos hc] at h; cases h; rfl
        · rw [if_neg hc] at h; cases h; rfl

theorem acc_logger : ∀ (schema : Schema) (f : Frame) (lg : Logs) (g : Frame) (lg2 : Logs),
    apply_constraints schema f lg = .ok (g, lg2) → lg2.loggerErrors = lg.loggerErrors := by
  intro schema
  induction schema with
  | nil => intro f lg g lg2 h; cases h; rfl
  | cons e rest ih =>
    intro f lg g lg2 h
    obtain ⟨column, rules⟩ := e
    rw [apply_constraints] at h
    cases hstep : apply_constraints_column f column rules lg with
    | error e2 => rw [hstep] at h; cases h
    | ok p =>
      rw [hstep] at h
      rw [ih p.1 p.2 g lg2 h, acc_column_logger hstep]

theorem roc_logger (f : Frame) (column : String) (lg : Logs) :
    (remove_outliers_column f column lg).2.loggerErrors = lg.loggerErrors := by
  unfold remove_outliers_column
  cases getCol f column with
  | none => rfl
  | some c =>
    dsimp only
    cases h1 : quantileF (numsOf c.vals) (mkFrac 1 4) with
    | none =>
      cases h3 : quantileF (numsOf c.vals) (mkFrac 3 4) with
      | none => rfl
      | some q3 => rfl
    | some q1 =>
      cases h3 : quantileF (numsOf c.vals) (mkFrac 3 4) with
      | none => rfl
      | some q3 =>
        dsimp only
        by_cases hc : 0 < countTrue (outlierMask (iqrLower q1 q3) (iqrUpper q1 q3) c.vals)
        · rw [if_pos hc]
        · rw [if_neg hc]

theorem rol_logger : ∀ (cols : List String) (schema : Schema) (f : Frame) (lg : Logs),
    (remove_outliers_loop schema cols f lg).2.loggerErrors = lg.loggerErrors := by
  intro cols
  induction cols with
  | nil => intro schema f lg; rfl
  | cons column rest ih =>
    intro schema f lg
    rw [remove_outliers_loop]
    by_cases hc : (schemaKeys schema).contains column = true
    · simp only [if_pos hc]
      rw [ih]
      exact roc_logger f column lg
    · simp only [if_neg hc]
      exact ih schema f lg

/-- Decomposition of a successful `clean_and_validate` run into its four
stages and the returned counters. -/
theorem clean_ok_parts {schema : Schema} {df g : Frame} {st : RunResult}
    (h : clean_and_validate schema df = .ok (g, st)) :
    ∃ f1 lg1 f2 lg2 f3 lg3 lg4,
      handle_missing_values schema df noLogs = (f1, lg1) ∧
      validate_data_types schema f1 lg1 = .ok (f2, lg2) ∧
      apply_constraints schema f2 lg2 = .ok (f3, lg3) ∧
      remove_outliers schema f3 lg3 = (g, lg4) ∧
      st = RunResult.mk (nRows df) (nRows g) lg4.errors lg4.loggerErrors := by
  unfold clean_and_validate at h
  dsimp only at h
  cases h2 : validate_data_types schema (handle_missing_values schema df noLogs).1
      (handle_missing_values schema df noLogs).2 with
  | error e => rw [h2] at h; cases h
  | ok p2 =>
    rw [h2] at h
    obtain ⟨f2, lg2⟩ := p2
    dsimp only at h
    cases h3 : apply_constraints schema f2 lg2 with
    | error e => rw [h3] at h; cases h
    | ok p3 =>
      rw [h3] at h
      obtain ⟨f3, lg3⟩ := p3
      dsimp only at h
      cases h
      exact ⟨_, _, f2, lg2, f3, lg3, _, rfl, h2, h3, rfl, rfl⟩

theorem getCol_length {f : Frame} {column : String} {c : Col} (hwf : wfF f = true)
    (hget : getCol f column = some c) : c.vals.length = nRows f :=
  (wfF_iff f).mp hwf (column, c) (getCol_mem f column c hget)

theorem nRows_filterMask_keyOf {f : Frame} {key : List Value} {keep : Value → Bool}
    (hwf : wfF f = true) (hlen : key.length = nRows f) :
    nRows (filterMask (key.map keep) f) = key.countP keep := by
  cases f with
  | nil =>
    have hk : key = [] := List.length_eq_zero.mp hlen
    subst hk
    rfl
  | cons p rest =>
    have hp : p.2.vals.length = nRows (p :: rest) := (wfF_iff _).mp hwf p (by simp)
    have hlen2 : p.2.vals.length = key.length := by rw [hp, hlen]
    show (applyMask (key.map keep) p.2.vals).length = key.countP keep
    rw [applyMask_length_eq (key.map keep) p.2.vals key hlen2, applyMask_map_keep,
      dropRowsBy_self, ← List.countP_eq_length_filter]

/-!  Claim theorems. -/

/-- C3: after every successful run of clean_and_validate, cleanedRows equals
the row count of the returned table, cleanedRows ≤ totalRows, and the
returned table is exactly the input passed through the four stages
(missing-value handling, type validation, constraint enforcement, outlier
removal) in sequence. -/
theorem c3_row_counters (schema : Schema) (df g : Frame) (st : RunResult)
    (h : clean_and_validate schema df = .ok (g, st)) :
    st.cleaned_rows = nRows g ∧ st.total_rows = nRows df ∧
    st.cleaned_rows ≤ st.total_rows ∧
    ∃ f1 lg1 f2 lg2 f3 lg3,
      handle_missing_values schema df noLogs = (f1, lg1) ∧
      validate_data_types schema f1 lg1 = .ok (f2, lg2) ∧
      apply_constraints schema f2 lg2 = .ok (f3, lg3) ∧
      g = (remove_outliers schema f3 lg3).1 := by
  obtain ⟨f1, lg1, f2, lg2, f3, lg3, lg4, h1, h2, h3, h4, h5⟩ := clean_ok_parts h
  subst h5
  refine ⟨rfl, rfl, ?_, f1, lg1, f2, lg2, f3, lg3, h1, h2, h3, by rw [h4]⟩
  show nRows g ≤ nRows df
  have s1 : stepOK df f1 := by
    have := stepOK_hmv schema df noLogs
    rw [h1] at this
    exact this
  have s2 : stepOK f1 f2 := stepOK_vdt schema f1 lg1 f2 lg2 h2
  have s3 : stepOK f2 f3 := (stepOK_acc schema f2 lg2 f3 lg3 h3).1
  have s4 : stepOK f3 g := by
    have := (stepOK_ro schema f3 lg3).1
    rw [h4] at this
    exact this
  exact Nat.le_trans s4.2.2 (Nat.le_trans s3.2.2 (Nat.le_trans s2.2.2 s1.2.2))

/-- C3 witness: a concrete run (3 input rows, 1 surviving row). -/
theorem c3_row_counters_witness :
    clean_and_validate c3Schema c3DF = .ok (c3OutFrame, c3OutRes) ∧
    c3OutRes.cleaned_rows = nRows c3OutFrame ∧
    c3OutRes.cleaned_rows ≤ c3OutRes.total_rows := by
  have h : clean_and_validate c3Schema c3DF = .ok (c3OutFrame, c3OutRes) := rfl
  have r := c3_row_counters c3Schema c3DF c3OutFrame c3OutRes h
  exact ⟨h, r.1, r.2.2.1⟩

/-- C6: in stage 1, a required schema column present in the table with a
positive number of missing values has exactly the rows with a missing value
in it dropped (from every column of the table), the entry
"Removed <count> rows with missing <column>" appended to the log, and the
row count reduced by the number of missing values. -/
theorem c6_required_drop (f : Frame) (column : String) (rules : ColumnRule) (lg : Logs)
    (c : Col) (hwf : wfF f = true) (hget : getCol f column = some c)
    (hreq : rules.required = true) (hcount : 0 < countMissing c.vals) :
    (handle_missing_column f column rules lg).2
      = Logs.mk (lg.errors ++ [missingMsg (countMissing c.vals) column]) lg.loggerErrors ∧
    (∀ name d, getCol f name = some d →
      getCol (handle_missing_column f column rules lg).1 name
        = some (Col.mk d.dtype (dropRowsBy c.vals (fun v => !isMissing v) d.vals))) ∧
    nRows (handle_missing_column f column rules lg).1 = nRows f - countMissing c.vals := by
  have hres : handle_missing_column f column rules lg
      = (filterMask (keepMask c.vals) f,
         Logs.mk (lg.errors ++ [missingMsg (countMissing c.vals) column]) lg.loggerErrors) := by
    unfold handle_missing_column
    rw [hget]
    dsimp only
    rw [if_pos hreq, if_pos hcount]
  rw [hres]
  refine ⟨rfl, ?_, ?_⟩
  · intro name d hname
    show getCol (filterMask (keepMask c.vals) f) name = _
    rw [getCol_filterMask, hname]
    show some (Col.mk d.dtype (applyMask (keepMask c.vals) d.vals)) = _
    rw [show keepMask c.vals = c.vals.map (fun v => !isMissing v) from rfl,
      applyMask_map_keep]
  · show nRows (filterMask (keepMask c.vals) f) = nRows f - countMissing c.vals
    rw [show keepMask c.vals = c.vals.map (fun v => !isMissing v) from rfl,
      nRows_filterMask_keyOf hwf (getCol_length hwf hget)]
    have := countP_keep_add_missing c.vals
    have hclen : c.vals.length = nRows f := getCol_length hwf hget
    omega

/-- C6 witness: 3 missing out of 10 rows leaves 7 rows and logs
"Removed 3 rows with missing a". -/
theorem c6_required_drop_witness :
    (handle_missing_column c6DF "a" c6Rule noLogs).2
      = Logs.mk ["Removed 3 rows with missing a"] [] ∧
    getCol (handle_missing_column c6DF "a" c6Rule noLogs).1 "b"
      = some (Col.mk .float64
          [.num (Frac.ofNat 1), .num (Frac.ofNat 3), .num (Frac.ofNat 4), .num (Frac.ofNat 6),
           .num (Frac.ofNat 7), .num (Frac.ofNat 9), .num (Frac.ofNat 10)]) ∧
    nRows (handle_missing_column c6DF "a" c6Rule noLogs).1 = 7 ∧
    nRows c6DF = 10 := by
  have h := c6_required_drop c6DF "a" c6Rule noLogs c6Col (by decide) (by decide)
    (by decide) (by decide)
  refine ⟨?_, ?_, ?_, by decide⟩
  · exact h.1.trans (by decide)
  · exact (h.2.1 "b" c6ColB (by decide)).trans (by decide)
  · exact h.2.2.trans (by decide)

theorem countP_bool_not_add (p : Value → Bool) (l : List Value) :
    l.countP (fun v => !p v) + l.countP p = l.length := by
  induction l with
  | nil => rfl
  | cons v vs ih =>
    cases h : p v <;> simp [List.countP_cons, h] <;> omega

/-- C7: in stage 1, a non-required schema column present in the table has its
missing values replaced by the median of the column's current non-missing
values when its dtype is numeric (int64/float64), and by the literal string
"Unknown" otherwise; no rows are dropped and nothing is logged. -/
theorem c7_nonrequired_fill (f : Frame) (column : String) (rules : ColumnRule) (lg : Logs)
    (c : Col) (hget : getCol f column = some c) (hreq : rules.required = false) :
    ((c.dtype = .int64 ∨ c.dtype = .float64) →
      ∀ m, medianF (numsOf c.vals) = some m →
      handle_missing_column f column rules lg
        = (setCol f column (Col.mk c.dtype (fillVals (.num m) c.vals)), lg)) ∧
    (¬(c.dtype = .int64 ∨ c.dtype = .float64) → 0 < countMissing c.vals →
      handle_missing_column f column rules lg
        = (setCol f column (Col.mk .obj (fillVals (.str "Unknown") c.vals)), lg)) := by
  have hreq2 : ¬rules.required = true := by rw [hreq]; simp
  constructor
  · intro hdt m hm
    unfold handle_missing_column
    rw [hget]
    dsimp only
    rw [if_neg hreq2, if_pos hdt, hm]
  · intro hdt hc
    unfold handle_missing_column
    rw [hget]
    dsimp only
    rw [if_neg hreq2, if_neg hdt, if_pos hc]

/-- C7 witness: [1, 2, missing, 4] is filled to [1, 2, 2, 4] (median 2), and
an object column's missing value is filled with "Unknown". -/
theorem c7_nonrequired_fill_witness :
    handle_missing_column c7DF "a" c7Rule noLogs
      = ([("a", Col.mk .float64
          [.num (Frac.ofNat 1), .num (Frac.ofNat 2), .num (Frac.ofNat 2), .num (Frac.ofNat 4)])],
         noLogs) ∧
    medianF (numsOf c7Col.vals) = some (Frac.ofNat 2) ∧
    handle_missing_column c7DFobj "b" c7Rule noLogs
      = ([("b", Col.mk .obj [.str "u", .str "Unknown"])], noLogs) := by
  have hmed : medianF (numsOf c7Col.vals) = some (Frac.ofNat 2) := by decide
  have h1 := (c7_nonrequired_fill c7DF "a" c7Rule noLogs c7Col rfl rfl).1
    (Or.inr rfl) (Frac.ofNat 2) hmed
  have h2 := (c7_nonrequired_fill c7DFobj "b" c7Rule noLogs c7ColB rfl rfl).2
    (by decide) (by decide)
  exact ⟨h1.trans (by decide), hmed, h2.trans (by decide)⟩

/-- C5 counterexample: a string-tagged column containing one already-missing
value.  The coercion is the identity, so NOTHING newly becomes missing
through coercion, yet the stage counts 1, logs
"Removed 1 rows with invalid a" and drops the row — refuting the claim that
exactly the newly-missing-through-coercion values are counted. -/
theorem c5_counterexample :
    validate_types_column c5DF "a" c5Rule noLogs
      = .ok ([("a", Col.mk .float64 []), ("b", Col.mk .float64 [])],
             Logs.mk ["Removed 1 rows with invalid a"] []) ∧
    countNewlyMissing c5ColA.vals c5ColA.vals = 0 := ⟨rfl, rfl⟩

/-- C5 amended: after coercion, ALL missing values of the (possibly coerced)
column are counted — pre-existing missing values included, not only those
newly made missing by the coercion; if the count is positive the entry
"Removed <count> rows with invalid <column>" is logged and exactly the rows
missing in that column are dropped. -/
theorem c5_amended_invalid_drop (f : Frame) (column : String) (rules : ColumnRule)
    (lg : Logs) (c c2 : Col) (t : TypeTag) (hwf : wfF f = true)
    (hget : getCol f column = some c) (htype : rules.type = some t)
    (hco : coerceCol t c = .ok c2) (hpos : 0 < countMissing c2.vals) :
    validate_types_column f column rules lg
      = .ok (filterMask (keepMask c2.vals) (setCol f column c2),
             Logs.mk (lg.errors ++ [invalidMsg (countMissing c2.vals) column]) lg.loggerErrors) ∧
    (∀ name d, getCol (setCol f column c2) name = some d →
      getCol (filterMask (keepMask c2.vals) (setCol f column c2)) name
        = some (Col.mk d.dtype (dropRowsBy c2.vals (fun v => !isMissing v) d.vals))) ∧
    nRows (filterMask (keepMask c2.vals) (setCol f column c2))
      = nRows f - countMissing c2.vals := by
  have hwf2 : wfF (setCol f column c2) = true := wf_setCol hwf hget (coerceCol_length hco)
  have hget2 : getCol (setCol f column c2) column = some c2 :=
    getCol_setCol_self f column c2 c hget
  have hrows2 : nRows (setCol f column c2) = nRows f :=
    nRows_setCol f column c2 c hget (coerceCol_length hco)
  refine ⟨?_, ?_, ?_⟩
  · unfold validate_types_column
    rw [hget]
    dsimp only
    rw [htype]
    dsimp only
    rw [hco]
    dsimp only
    rw [if_pos hpos]
  · intro name d hname
    rw [getCol_filterMask, hname]
    show some (Col.mk d.dtype (applyMask (keepMask c2.vals) d.vals)) = _
    rw [show keepMask c2.vals = c2.vals.map (fun v => !isMissing v) from rfl,
      applyMask_map_keep]
  · rw [show keepMask c2.vals = c2.vals.map (fun v => !isMissing v) from rfl,
      nRows_filterMask_keyOf hwf2 (getCol_length hwf2 hget2)]
    have := countP_keep_add_missing c2.vals
    have hclen : c2.vals.length = nRows f := (getCol_length hwf2 hget2).trans hrows2
    omega

/-- C5 amended witness: "abc" under a pyInt-tagged rule becomes missing and
is dropped, logging "Removed 1 rows with invalid a". -/
theorem c5_amended_invalid_drop_witness :
    validate_types_column c5WDF "a" c5WRule noLogs
      = .ok ([("a", Col.mk .nInt64 [.num (Frac.ofNat 2)])],
             Logs.mk ["Removed 1 rows with invalid a"] []) ∧
    nRows c5WDF = 2 := by
  have h := c5_amended_invalid_drop c5WDF "a" c5WRule noLogs c5WCol
    (Col.mk .nInt64 [.missing, .num (Frac.ofNat 2)]) TypeTag.pyInt
    (by decide) rfl rfl rfl (by decide)
  exact ⟨h.1, by decide⟩

/-- C4 counterexample: a column whose rule declares the STRING tag "integer"
(the data model's tag) and which contains the non-numeric string "abc".  The
source compares the tag with the Python builtin `int`, not the string
"integer", so NO coercion runs: the stage returns the frame unchanged, "abc"
does not become missing, and nothing is logged — refuting the claim. -/
theorem c4_counterexample :
    validate_types_column c4DF "a" c4Rule noLogs = .ok (c4DF, noLogs) ∧
    getCol c4DF "a" = some (Col.mk .obj [.str "abc", .num (Frac.ofNat 2)]) := ⟨rfl, rfl⟩

/-- C4 amended: the integer coercion is selected by the Python BUILTIN type
`int`, not by the string tag "integer" (which selects no coercion at all).
When selected and every parsed value is integral, each value is parsed as
numeric and the column becomes the nullable Int64 representation; a string
that fails numeric parsing becomes missing, one that parses becomes its
number. -/
theorem c4_amended_int_coercion (c : Col)
    (hok : (c.vals.map toNumericVal).any isNonIntegralNum = false) :
    coerceCol .pyInt c = .ok (Col.mk .nInt64 (c.vals.map toNumericVal)) ∧
    coerceCol (.name "integer") c = .ok c ∧
    (∀ s, parseNumString s = none → toNumericVal (.str s) = .missing) ∧
    (∀ s q, parseNumString s = some q → toNumericVal (.str s) = .num q) := by
  refine ⟨?_, rfl, ?_, ?_⟩
  · unfold coerceCol
    rw [if_neg (by decide), if_pos rfl, if_neg (by simp [hok])]
  · intro s hs
    simp [toNumericVal, hs]
  · intro s q hs
    simp [toNumericVal, hs]

/-- C4 amended witness: under pyInt, "abc" becomes missing and "7" becomes
the integer 7; under the string tag "integer" the same column is untouched. -/
theorem c4_amended_int_coercion_witness :
    coerceCol .pyInt c4WCol = .ok (Col.mk .nInt64 [.missing, .num (Frac.ofNat 7)]) ∧
    coerceCol (.name "integer") c4WCol = .ok c4WCol ∧
    toNumericVal (.str "abc") = .missing := by
  have h := c4_amended_int_coercion c4WCol (by decide)
  exact ⟨h.1, h.2.1, h.2.2.1 "abc" (by decide)⟩

/-- C2 counterexample: a schema entry without a "type" key makes
clean_and_validate raise an uncaught KeyError (the lookup `rules["type"]`
happens before the try block), refuting "no exception propagates to the
caller for any malformed schema entry". -/
theorem c2_counterexample :
    clean_and_validate c2Schema c2DF = .error "KeyError: type missing in rules for a" := rfl

/-- C2 amended: a ColumnRule missing its "type" key raises a KeyError that
propagates out of stage 2 (it is read before the try block); an exception
raised INSIDE the coercion is caught: the stage returns successfully, the
frame is unchanged (no rows dropped for that column), the cleaning log is
unchanged, and the failure is reported at error severity on the logger
channel.  (An unsupported type tag raises nothing — it selects no coercion;
see the C4 theorems.) -/
theorem c2_amended_exceptions (f : Frame) (column : String) (rules : ColumnRule) (lg : Logs)
    (c : Col) (hget : getCol f column = some c) :
    (rules.type = none →
      validate_types_column f column rules lg
        = .error ("KeyError: type missing in rules for " ++ column)) ∧
    (∀ t e, rules.type = some t → coerceCol t c = .error e →
      validate_types_column f column rules lg
        = .ok (f, Logs.mk lg.errors (lg.loggerErrors ++ [coercionErrMsg column e]))) := by
  constructor
  · intro ht
    unfold validate_types_column
    rw [hget]
    dsimp only
    rw [ht]
  · intro t e ht hco
    unfold validate_types_column
    rw [hget]
    dsimp only
    rw [ht]
    dsimp only
    rw [hco]

/-- C2 amended witness: the missing-type KeyError, and a caught Int64-cast
failure (value 3/2) that leaves the column untouched and logs at error
severity. -/
theorem c2_amended_exceptions_witness :
    validate_types_column c2DF "a" c2Rule noLogs
      = .error "KeyError: type missing in rules for a" ∧
    validate_types_column c2WDF "a" c2WRule noLogs
      = .ok (c2WDF, Logs.mk []
          ["Type conversion error for a: cannot safely cast non-equivalent values to Int64"]) := by
  have h1 := (c2_amended_exceptions c2DF "a" c2Rule noLogs c2Col rfl).1 rfl
  have h2 := (c2_amended_exceptions c2WDF "a" c2WRule noLogs c2WCol rfl).2 TypeTag.pyInt
    "cannot safely cast non-equivalent values to Int64" rfl rfl
  exact ⟨h1, h2⟩

theorem countTrue_outlierMask (lower upper : Frac) (vals : List Value) :
    countTrue (outlierMask lower upper vals) = vals.countP (isOutlierVal lower upper) := by
  unfold countTrue outlierMask
  rw [List.countP_map]
  rfl

/-- C9: in stage 4, for a column whose quartiles exist (some numeric value is
present), the bounds are Q1 - 1.5 IQR and Q3 + 1.5 IQR computed by the
linear-interpolation quantile over the column's current numeric values;
exactly the rows whose value is strictly outside the bounds are removed from
every column, and if any were removed the entry
"Removed <count> outliers from <column>" is appended. -/
theorem c9_outlier_stage (f : Frame) (column : String) (lg : Logs) (c : Col) (q1 q3 : Frac)
    (hwf : wfF f = true) (hget : getCol f column = some c)
    (h1 : quantileF (numsOf c.vals) (mkFrac 1 4) = some q1)
    (h3 : quantileF (numsOf c.vals) (mkFrac 3 4) = some q3)
    (hpos : 0 < c.vals.countP (isOutlierVal (iqrLower q1 q3) (iqrUpper q1 q3))) :
    (remove_outliers_column f column lg).2
      = Logs.mk (lg.errors ++
          [outlierMsg (c.vals.countP (isOutlierVal (iqrLower q1 q3) (iqrUpper q1 q3))) column])
          lg.loggerErrors ∧
    (∀ name d, getCol f name = some d →
      getCol (remove_outliers_column f column lg).1 name
        = some (Col.mk d.dtype
            (dropRowsBy c.vals (fun v => !isOutlierVal (iqrLower q1 q3) (iqrUpper q1 q3) v)
              d.vals))) ∧
    nRows (remove_outliers_column f column lg).1
      = nRows f - c.vals.countP (isOutlierVal (iqrLower q1 q3) (iqrUpper q1 q3)) := by
  have hcnt := countTrue_outlierMask (iqrLower q1 q3) (iqrUpper q1 q3) c.vals
  have hres : remove_outliers_column f column lg
      = (filterMask ((outlierMask (iqrLower q1 q3) (iqrUpper q1 q3) c.vals).map (fun b => !b)) f,
         Logs.mk (lg.errors ++
           [outlierMsg (countTrue (outlierMask (iqrLower q1 q3) (iqrUpper q1 q3) c.vals)) column])
           lg.loggerErrors) := by
    unfold remove_outliers_column
    rw [hget]
    dsimp only
    rw [h1, h3]
    dsimp only
    rw [if_pos (by rw [hcnt]; exact hpos)]
  have hmask : (outlierMask (iqrLower q1 q3) (iqrUpper q1 q3) c.vals).map (fun b => !b)
      = c.vals.map (fun v => !isOutlierVal (iqrLower q1 q3) (iqrUpper q1 q3) v) := by
    unfold outlierMask
    rw [List.map_map]
    rfl
  rw [hres]
  refine ⟨by rw [hcnt], ?_, ?_⟩
  · intro name d hname
    rw [getCol_filterMask, hname]
    show some (Col.mk d.dtype (applyMask _ d.vals)) = _
    rw [hmask, applyMask_map_keep]
  · show nRows (filterMask _ f) = _
    rw [hmask, nRows_filterMask_keyOf hwf (getCol_length hwf hget)]
    have := countP_bool_not_add
      (isOutlierVal (iqrLower q1 q3) (iqrUpper q1 q3)) c.vals
    have hclen : c.vals.length = nRows f := getCol_length hwf hget
    omega

/-- C9 witness: on [10, 12, 11, 13, 1000] the quartiles are 11 and 13, the
fence is [8, 16], and exactly the value 1000 is removed, with the entry
"Removed 1 outliers from x". -/
theorem c9_outlier_stage_witness :
    (remove_outliers_column c9DF "x" noLogs).2 = Logs.mk ["Removed 1 outliers from x"] [] ∧
    getCol (remove_outliers_column c9DF "x" noLogs).1 "x"
      = some (Col.mk .float64
          [.num (Frac.ofNat 10), .num (Frac.ofNat 12), .num (Frac.ofNat 11),
           .num (Frac.ofNat 13)]) ∧
    nRows (remove_outliers_column c9DF "x" noLogs).1 = 4 ∧
    quantileF (numsOf c9Col.vals) (mkFrac 1 4) = some (Frac.ofNat 11) ∧
    quantileF (numsOf c9Col.vals) (mkFrac 3 4) = some (Frac.ofNat 13) := by
  have h := c9_outlier_stage c9DF "x" noLogs c9Col (Frac.ofNat 11) (Frac.ofNat 13)
    (by decide) rfl (by decide) (by decide) (by decide)
  refine ⟨h.1.trans (by decide), ?_, h.2.2.trans (by decide), by decide, by decide⟩
  exact (h.2.1 "x" c9Col rfl).trans (by decide)

theorem boundFilter_no_missing {cmp : Frac → Value → Except String Bool} {b : Frac}
    {column : String} {f g : Frame} {c : Col}
    (hmiss : cmp b .missing = .ok false)
    (hget : getCol f column = some c) (h : boundFilter cmp (some b) column f = .ok g) :
    ∃ c2, getCol g column = some c2 ∧ ∀ v ∈ c2.vals, isMissing v = false := by
  unfold boundFilter at h
  rw [hget] at h
  dsimp only at h
  cases hm : maskM (cmp b) c.vals with
  | error e => rw [hm] at h; cases h
  | ok m =>
    rw [hm] at h
    cases h
    refine ⟨Col.mk c.dtype (applyMask m c.vals), ?_, ?_⟩
    · rw [getCol_filterMask, hget]
      rfl
    · intro v hv
      have := maskM_ok_applyMask_true hm v hv
      by_contra hmiss2
      have hv2 : v = Value.missing := by
        cases v with
        | missing => rfl
        | num q => simp [isMissing] at hmiss2
        | str s => simp [isMissing] at hmiss2
        | dt t => simp [isMissing] at hmiss2
      rw [hv2, hmiss] at this
      simp at this

/-- C10: in stage 3, a missing value satisfies neither bound comparison
(both produce False, as NaN comparisons do), so when a schema column present
in the table carries a min_value or max_value bound, no row whose value in
that column is missing survives the constraint stage. -/
theorem c10_missing_fails_bounds (f : Frame) (column : String) (rules : ColumnRule)
    (lg : Logs) (c d : Col) (g : Frame) (lg2 : Logs) (b : Frac)
    (hget : getCol f column = some c)
    (hbound : rules.min_value = some b ∨ rules.max_value = some b)
    (h : apply_constraints_column f column rules lg = .ok (g, lg2))
    (hgot : getCol g column = some d) :
    countMissing d.vals = 0 ∧
    cmpGe b .missing = .ok false ∧ cmpLe b .missing = .ok false := by
  refine ⟨?_, rfl, rfl⟩
  unfold apply_constraints_column at h
  rw [hget] at h
  dsimp only at h
  cases h1 : boundFilter cmpGe rules.min_value column f with
  | error e => rw [h1] at h; cases h
  | ok f1 =>
    rw [h1] at h
    dsimp only at h
    cases h2 : boundFilter cmpLe rules.max_value column f1 with
    | error e => rw [h2] at h; cases h
    | ok f2 =>
      rw [h2] at h
      dsimp only at h
      have hg : g = patternFilter rules.pattern column f2 := by
        by_cases hc : 0 < nRows f - nRows (patternFilter rules.pattern column f2)
        · rw [if_pos hc] at h; cases h; rfl
        · rw [if_neg hc] at h; cases h; rfl
      subst hg
      have hsub3 : frameSub (patternFilter rules.pattern column f2) f2 :=
        (stepOK_and_sub_of_cases (patternFilter_cases rules.pattern column f2)).2
      have hsub2 : frameSub f2 f1 := (stepOK_and_sub_of_cases (boundFilter_cases h2)).2
      have hsub1 : frameSub f1 f := (stepOK_and_sub_of_cases (boundFilter_cases h1)).2
      rw [countMissing_eq_zero_iff]
      rcases hbound with hb | hb
      · rw [hb] at h1
        obtain ⟨c1, hc1, hnm⟩ := boundFilter_no_missing rfl hget h1
        have hsome2 : (getCol f2 column).isSome = true := by
          rw [getCol_isSome_congr f2 (patternFilter rules.pattern column f2) hsub3.1.symm
            column, hgot]
          rfl
        rcases Option.isSome_iff_exists.mp hsome2 with ⟨cm, hcm⟩
        obtain ⟨_, hs2⟩ := hsub2.2 column c1 cm hc1 hcm
        obtain ⟨_, hs3⟩ := hsub3.2 column cm d hcm hgot
        intro v hv
        exact hnm v (hs2.subset (hs3.subset hv))
      · have hsome1 : (getCol f1 column).isSome = true := by
          rw [getCol_isSome_congr f1 f hsub1.1 column, hget]
          rfl
        rcases Option.isSome_iff_exists.mp hsome1 with ⟨c1, hc1⟩
        rw [hb] at h2
        obtain ⟨cm, hcm, hnm⟩ := boundFilter_no_missing rfl hc1 h2
        obtain ⟨_, hs3⟩ := hsub3.2 column cm d hcm hgot
        intro v hv
        exact hnm v (hs3.subset hv)

/-- C10 witness: min_value 0 on a column [5, missing, 3] drops the missing
row (the stage logs one combined constraint entry for the column). -/
theorem c10_missing_fails_bounds_witness :
    apply_constraints_column c10DF "a" c10Rule noLogs
      = .ok ([("a", Col.mk .float64 [.num (Frac.ofNat 5), .num (Frac.ofNat 3)])],
             Logs.mk ["Removed 1 rows failing a constraints"] []) ∧
    countMissing [Value.num (Frac.ofNat 5), Value.num (Frac.ofNat 3)] = 0 := by
  have hrun : apply_constraints_column c10DF "a" c10Rule noLogs
      = .ok ([("a", Col.mk .float64 [.num (Frac.ofNat 5), .num (Frac.ofNat 3)])],
             Logs.mk ["Removed 1 rows failing a constraints"] []) := rfl
  have h := c10_missing_fails_bounds c10DF "a" c10Rule noLogs c10Col
    (Col.mk .float64 [.num (Frac.ofNat 5), .num (Frac.ofNat 3)]) _ _ (Frac.ofNat 0)
    rfl (Or.inl rfl) hrun rfl
  exact ⟨hrun, h.1⟩

/-- C8: evaluation at the failing input.  The rules carry a pattern that
matches exactly the string "nan"; the object column holds a MISSING value
and the string "hello".  The source stringifies the column with astype(str)
BEFORE str.match, so the missing value becomes the string "nan" and passes
the filter (na=False is bypassed), while "hello" is dropped: the surviving
row is precisely the one the claim says can never match. -/
theorem c8_missing_matches_pattern :
    apply_constraints_column c8DF "a" c8Rule noLogs
      = .ok ([("a", Col.mk .obj [.missing])],
             Logs.mk ["Removed 1 rows failing a constraints"] []) := rfl

/-!  Second-run silence (towards C1): a frame satisfying `frameInv` is a
fixed point of stages 1-3, and they log nothing on it. -/

theorem toDatetimeVal_idem (v : Value) : toDatetimeVal (toDatetimeVal v) = toDatetimeVal v := by
  cases v with
  | missing => rfl
  | num q => rfl
  | dt t => rfl
  | str s => cases hp : parseDateString s <;> simp [toDatetimeVal, hp]

theorem toNumericVal_idem (v : Value) : toNumericVal (toNumericVal v) = toNumericVal v := by
  cases v with
  | missing => rfl
  | num q => rfl
  | dt t => rfl
  | str s => cases hp : parseNumString s <;> simp [toNumericVal, hp]

theorem list_any_false {p : Value → Bool} {l : List Value} (h : ∀ x ∈ l, p x = false) :
    l.any p = false := by
  induction l with
  | nil => rfl
  | cons a t ih => simp [List.any_cons, h a (by simp), ih (fun x hx => h x (by simp [hx]))]

theorem list_any_false_mem {p : Value → Bool} : ∀ {l : List Value}, l.any p = false →
    ∀ x ∈ l, p x = false := by
  intro l
  induction l with
  | nil => intro _ x hx; simp at hx
  | cons a t ih =>
    intro h x hx
    rw [List.any_cons] at h
    rcases (by simpa using h : p a = false ∧ t.any p = false) with ⟨ha, ht⟩
    rcases (by simpa using hx : x = a ∨ x ∈ t) with h1 | h2
    · rw [h1]; exact ha
    · exact ih ht x h2

theorem coerceCol_fixed {rules : ColumnRule} {t : TypeTag} {c : Col}
    (hT : colInvT rules c) (htype : rules.type = some t) : coerceCol t c = .ok c := by
  obtain ⟨hsome, hdt, hmem⟩ := hT
  cases t with
  | name s =>
    by_cases hs : s = "datetime"
    · subst hs
      have hdty : c.dtype = DType.datetime64 := (hdt _ htype).1 rfl
      have hmap : c.vals.map toDatetimeVal = c.vals :=
        list_map_id_of_mem (fun v hv => ((hmem v hv).2 _ htype).1 rfl)
      unfold coerceCol
      rw [if_pos rfl, hmap, ← hdty]
    · unfold coerceCol
      rw [if_neg (by simp [hs]), if_neg (by simp), if_neg (by simp)]
  | pyInt =>
    have hdty : c.dtype = DType.nInt64 := (hdt _ htype).2.1 rfl
    have hmap : c.vals.map toNumericVal = c.vals :=
      list_map_id_of_mem (fun v hv => (((hmem v hv).2 _ htype).2.1 rfl).1)
    have hany : c.vals.any isNonIntegralNum = false :=
      list_any_false (fun v hv => (((hmem v hv).2 _ htype).2.1 rfl).2)
    unfold coerceCol
    rw [if_neg (by simp), if_pos rfl]
    dsimp only
    rw [hmap, if_neg (by simp [hany]), ← hdty]
  | pyFloat =>
    have hdty : c.dtype = DType.float64 := (hdt _ htype).2.2 rfl
    have hmap : c.vals.map toNumericVal = c.vals :=
      list_map_id_of_mem (fun v hv => ((hmem v hv).2 _ htype).2.2 rfl)
    unfold coerceCol
    rw [if_neg (by simp), if_neg (by simp), if_pos rfl, hmap, ← hdty]

theorem colInvT_no_missing {rules : ColumnRule} {c : Col} (hT : colInvT rules c) :
    countMissing c.vals = 0 :=
  (countMissing_eq_zero_iff _).mpr (fun v hv => (hT.2.2 v hv).1)

theorem hmc_absent {f : Frame} {column : String} {rules : ColumnRule} {lg : Logs}
    (hget : getCol f column = none) : handle_missing_column f column rules lg = (f, lg) := by
  unfold handle_missing_column
  rw [hget]

theorem hmc_id {f : Frame} {column : String} {rules : ColumnRule} {c : Col} (lg : Logs)
    (hget : getCol f column = some c) (hT : colInvT rules c) :
    handle_missing_column f column rules lg = (f, lg) := by
  have hnm : ∀ v ∈ c.vals, isMissing v = false := fun v hv => (hT.2.2 v hv).1
  have hcm : countMissing c.vals = 0 := colInvT_no_missing hT
  unfold handle_missing_column
  rw [hget]
  dsimp only
  by_cases hreq : rules.required = true
  · rw [if_pos hreq, if_neg (by omega)]
  · rw [if_neg hreq]
    by_cases hdt : c.dtype = DType.int64 ∨ c.dtype = DType.float64
    · rw [if_pos hdt]
      cases hmed : medianF (numsOf c.vals) with
      | none => rfl
      | some m =>
        dsimp only
        rw [fillVals_of_no_missing hnm]
        show (setCol f column c, lg) = (f, lg)
        rw [setCol_self f column c hget]
    · rw [if_neg hdt, if_neg (by omega)]

theorem frameInv_head {column : String} {rules : ColumnRule} {rest : Schema} {f : Frame}
    (h : frameInv ((column, rules) :: rest) f) :
    ∀ c, getCol f column = some c → colInv rules c :=
  fun c hc => h column rules (by simp) c hc

theorem frameInv_tail {e : String × ColumnRule} {rest : Schema} {f : Frame}
    (h : frameInv (e :: rest) f) : frameInv rest f :=
  fun column rules hm c hc => h column rules (by simp [hm]) c hc

theorem hmv_id : ∀ (schema : Schema) (f : Frame) (lg : Logs), frameInv schema f →
    handle_missing_values schema f lg = (f, lg) := by
  intro schema
  induction schema with
  | nil => intro f lg _; rfl
  | cons e rest ih =>
    intro f lg hinv
    obtain ⟨column, rules⟩ := e
    rw [handle_missing_values]
    have hstep : handle_missing_column f column rules lg = (f, lg) := by
      cases hget : getCol f column with
      | none => exact hmc_absent hget
      | some c => exact hmc_id lg hget (frameInv_head hinv c hget).1
    rw [hstep]
    exact ih f lg (frameInv_tail hinv)

theorem vtc_absent {f : Frame} {column : String} {rules : ColumnRule} {lg : Logs}
    (hget : getCol f column = none) :
    validate_types_column f column rules lg = .ok (f, lg) := by
  unfold validate_types_column
  rw [hget]

theorem vtc_id {f : Frame} {column : String} {rules : ColumnRule} {c : Col} (lg : Logs)
    (hget : getCol f column = some c) (hT : colInvT rules c) :
    validate_types_column f column rules lg = .ok (f, lg) := by
  rcases Option.isSome_iff_exists.mp hT.1 with ⟨t, htype⟩
  have hco : coerceCol t c = .ok c := coerceCol_fixed hT htype
  have hcm : countMissing c.vals = 0 := colInvT_no_missing hT
  unfold validate_types_column
  rw [hget]
  dsimp only
  rw [htype]
  dsimp only
  rw [hco]
  dsimp only
  rw [if_neg (by omega), setCol_self f column c hget]

theorem vdt_id : ∀ (schema : Schema) (f : Frame) (lg : Logs), frameInv schema f →
    validate_data_types schema f lg = .ok (f, lg) := by
  intro schema
  induction schema with
  | nil => intro f lg _; rfl
  | cons e rest ih =>
    intro f lg hinv
    obtain ⟨column, rules⟩ := e
    rw [validate_data_types]
    have hstep : validate_types_column f column rules lg = .ok (f, lg) := by
      cases hget : getCol f column with
      | none => exact vtc_absent hget
      | some c => exact vtc_id lg hget (frameInv_head hinv c hget).1
    rw [hstep]
    exact ih f lg (frameInv_tail hinv)

theorem applyMask_all_true : ∀ (l : List Value) (m : List Bool),
    (∀ b ∈ m, b = true) → l.length ≤ m.length → applyMask m l = l := by
  intro l
  induction l with
  | nil => intro m _ _; exact applyMask_nil_vals m
  | cons v vs ih =>
    intro m hall hlen
    cases m with
    | nil => simp at hlen
    | cons b t =>
      have hb : b = true := hall b (by simp)
      subst hb
      rw [applyMask_cons_true, ih t (fun x hx => hall x (by simp [hx])) (by simpa using hlen)]

theorem filterMask_all_true {f : Frame} {m : List Bool} (hwf : wfF f = true)
    (hlen : nRows f ≤ m.length) (hall : ∀ b ∈ m, b = true) :
    filterMask m f = f := by
  unfold filterMask
  apply list_map_id_of_mem
  intro p hp
  have hv : p.2.vals.length = nRows f := (wfF_iff f).mp hwf p hp
  rw [applyMask_all_true p.2.vals m hall (by omega)]

theorem boundFilter_id {cmp : Frac → Value → Except String Bool} {ob : Option Frac}
    {column : String} {f : Frame} {c : Col} (hwf : wfF f = true)
    (hget : getCol f column = some c)
    (hall : ∀ b, ob = some b → ∀ v ∈ c.vals, cmp b v = .ok true) :
    boundFilter cmp ob column f = .ok f := by
  cases ob with
  | none => rfl
  | some b =>
    unfold boundFilter
    rw [hget]
    dsimp only
    rw [maskM_congr_map (q := fun _ => true) (hall b rfl)]
    dsimp only
    rw [filterMask_all_true hwf
      (by rw [List.length_map, getCol_length hwf hget])
      (by intro x hx; rcases List.mem_map.mp hx with ⟨v, _, h2⟩; exact h2.symm)]

theorem patternFilter_id {op : Option RePattern} {column : String} {f : Frame} {c : Col}
    (hwf : wfF f = true) (hget : getCol f column = some c)
    (hall : ∀ pt, op = some pt → c.dtype = .obj →
      ∀ v ∈ c.vals, pt.matchesAtStart (pyStr v) = true) :
    patternFilter op column f = f := by
  cases op with
  | none => rfl
  | some pt =>
    unfold patternFilter
    rw [hget]
    dsimp only
    by_cases hd : c.dtype = DType.obj
    · rw [if_pos hd]
      apply filterMask_all_true hwf
      · show nRows f ≤ (patternMask pt c.vals).length
        unfold patternMask
        rw [List.length_map, getCol_length hwf hget]
      · intro x hx
        rcases List.mem_map.mp hx with ⟨v, hv, h2⟩
        rw [← h2]
        exact hall pt rfl hd v hv
    · rw [if_neg hd]

theorem acc_column_absent {f : Frame} {column : String} {rules : ColumnRule} {lg : Logs}
    (hget : getCol f column = none) :
    apply_constraints_column f column rules lg = .ok (f, lg) := by
  unfold apply_constraints_column
  rw [hget]

theorem acc_column_id {f : Frame} {column : String} {rules : ColumnRule} {c : Col}
    (lg : Logs) (hwf : wfF f = true) (hget : getCol f column = some c)
    (hC : colInvC rules c) :
    apply_constraints_column f column rules lg = .ok (f, lg) := by
  unfold apply_constraints_column
  rw [hget]
  dsimp only
  rw [boundFilter_id hwf hget (fun b hb v hv => (hC v hv).1 b hb)]
  dsimp only
  rw [boundFilter_id hwf hget (fun b hb v hv => (hC v hv).2.1 b hb)]
  dsimp only
  rw [patternFilter_id hwf hget (fun pt hpt hd v hv => (hC v hv).2.2 pt hpt hd),
    if_neg (by omega)]

theorem acc_id : ∀ (schema : Schema) (f : Frame) (lg : Logs), wfF f = true →
    frameInv schema f → apply_constraints schema f lg = .ok (f, lg) := by
  intro schema
  induction schema with
  | nil => intro f lg _ _; rfl
  | cons e rest ih =>
    intro f lg hwf hinv
    obtain ⟨column, rules⟩ := e
    rw [apply_constraints]
    have hstep : apply_constraints_column f column rules lg = .ok (f, lg) := by
      cases hget : getCol f column with
      | none => exact acc_column_absent hget
      | some c => exact acc_column_id lg hwf hget (frameInv_head hinv c hget).2
    rw [hstep]
    exact ih f lg hwf (frameInv_tail hinv)

/-!  Establishment (towards C1): a successful run that caught no coercion
failure leaves every schema column of its output fully cleaned. -/

theorem colInvT_of_sub {rules : ColumnRule} {c c2 : Col} (h : colInvT rules c)
    (hd : c2.dtype = c.dtype) (hs : c2.vals.Sublist c.vals) : colInvT rules c2 :=
  ⟨h.1, by rw [hd]; exact h.2.1, fun v hv => h.2.2 v (hs.subset hv)⟩

theorem colInvC_of_sub {rules : ColumnRule} {c c2 : Col} (h : colInvC rules c)
    (hd : c2.dtype = c.dtype) (hs : c2.vals.Sublist c.vals) : colInvC rules c2 := by
  intro v hv
  rw [hd]
  exact h v (hs.subset hv)

theorem coerceCol_dtypeFixed {t : TypeTag} {c c2 : Col} (h : coerceCol t c = .ok c2) :
    dtypeFixed t c2.dtype := by
  cases t with
  | name s =>
    by_cases hs : s = "datetime"
    · subst hs
      unfold coerceCol at h
      rw [if_pos rfl] at h
      cases h
      exact ⟨fun _ => rfl, nofun, nofun⟩
    · refine ⟨fun h2 => ?_, nofun, nofun⟩
      cases h2
      exact absurd rfl hs
  | pyInt =>
    unfold coerceCol at h
    rw [if_neg (by simp), if_pos rfl] at h
    dsimp only at h
    by_cases ha : (c.vals.map toNumericVal).any isNonIntegralNum = true
    · rw [if_pos ha] at h; cases h
    · rw [if_neg ha] at h
      cases h
      exact ⟨nofun, fun _ => rfl, nofun⟩
  | pyFloat =>
    unfold coerceCol at h
    rw [if_neg (by simp), if_neg (by simp), if_pos rfl] at h
    cases h
    exact ⟨nofun, nofun, fun _ => rfl⟩

theorem coerceCol_valFixed {t : TypeTag} {c c2 : Col} (h : coerceCol t c = .ok c2) :
    ∀ v ∈ c2.vals, valCoerceFixed t v := by
  cases t with
  | name s =>
    by_cases hs : s = "datetime"
    · subst hs
      unfold coerceCol at h
      rw [if_pos rfl] at h
      cases h
      intro v hv
      rcases List.mem_map.mp hv with ⟨w, _, hw⟩
      refine ⟨fun _ => ?_, nofun, nofun⟩
      rw [← hw]
      exact toDatetimeVal_idem w
    · intro v _
      refine ⟨fun h2 => ?_, nofun, nofun⟩
      cases h2
      exact absurd rfl hs
  | pyInt =>
    unfold coerceCol at h
    rw [if_neg (by simp), if_pos rfl] at h
    dsimp only at h
    by_cases ha : (c.vals.map toNumericVal).any isNonIntegralNum = true
    · rw [if_pos ha] at h; cases h
    · rw [if_neg ha] at h
      cases h
      intro v hv
      refine ⟨nofun, fun _ => ⟨?_, ?_⟩, nofun⟩
      · rcases List.mem_map.mp hv with ⟨w, _, hw⟩
        rw [← hw]
        exact toNumericVal_idem w
      · exact list_any_false_mem (by simpa using ha) v hv
  | pyFloat =>
    unfold coerceCol at h
    rw [if_neg (by simp), if_neg (by simp), if_pos rfl] at h
    cases h
    intro v hv
    rcases List.mem_map.mp hv with ⟨w, _, hw⟩
    refine ⟨nofun, nofun, fun _ => ?_⟩
    rw [← hw]
    exact toNumericVal_idem w

theorem colInvT_establish {rules : ColumnRule} {t : TypeTag} {c c2 : Col}
    (htype : rules.type = some t) (hco : coerceCol t c = .ok c2) :
    colInvT rules (Col.mk c2.dtype (c2.vals.filter (fun v => !isMissing v))) := by
  refine ⟨by rw [htype]; rfl, ?_, ?_⟩
  · intro t2 ht2
    rw [htype] at ht2
    cases ht2
    show dtypeFixed t c2.dtype
    exact coerceCol_dtypeFixed hco
  · intro v hv
    rcases List.mem_filter.mp hv with ⟨hmem, hpred⟩
    refine ⟨by simpa using hpred, ?_⟩
    intro t2 ht2
    rw [htype] at ht2
    cases ht2
    exact coerceCol_valFixed hco v hmem

theorem vtc_post {f : Frame} {column : String} {rules : ColumnRule} {lg : Logs}
    {g : Frame} {lg2 : Logs} {c : Col} {t : TypeTag} {c2 : Col}
    (hget : getCol f column = some c) (htype : rules.type = some t)
    (hco : coerceCol t c = .ok c2)
    (h : validate_types_column f column rules lg = .ok (g, lg2)) :
    getCol g column = some (Col.mk c2.dtype (c2.vals.filter (fun v => !isMissing v))) := by
  unfold validate_types_column at h
  rw [hget] at h
  dsimp only at h
  rw [htype] at h
  dsimp only at h
  rw [hco] at h
  dsimp only at h
  have hset : getCol (setCol f column c2) column = some c2 :=
    getCol_setCol_self f column c2 c hget
  by_cases hc : 0 < countMissing c2.vals
  · rw [if_pos hc] at h
    cases h
    rw [getCol_filterMask, hset]
    show some (Col.mk c2.dtype (applyMask (keepMask c2.vals) c2.vals)) = _
    rw [show keepMask c2.vals = c2.vals.map (fun v => !isMissing v) from rfl,
      applyMask_map_keep, dropRowsBy_self]
  · rw [if_neg hc] at h
    cases h
    rw [hset]
    have hnm : ∀ v ∈ c2.vals, isMissing v = false :=
      (countMissing_eq_zero_iff _).mp (by omega)
    rw [filter_keep_of_no_missing hnm]

theorem vtc_other {f : Frame} {column : String} {rules : ColumnRule} {lg : Logs}
    {g : Frame} {lg2 : Logs} {column2 : String} {c : Col}
    (h : validate_types_column f column rules lg = .ok (g, lg2))
    (hne : column2 ≠ column) (hget : getCol f column2 = some c) :
    ∃ c2, getCol g column2 = some c2 ∧ c2.dtype = c.dtype ∧ c2.vals.Sublist c.vals := by
  unfold validate_types_column at h
  cases hg : getCol f column with
  | none =>
    rw [hg] at h
    cases h
    exact ⟨c, hget, rfl, List.Sublist.refl _⟩
  | some c0 =>
    rw [hg] at h
    dsimp only at h
    cases ht : rules.type with
    | none => rw [ht] at h; cases h
    | some t =>
      rw [ht] at h
      dsimp only at h
      cases hco : coerceCol t c0 with
      | error e =>
        rw [hco] at h
        cases h
        exact ⟨c, hget, rfl, List.Sublist.refl _⟩
      | ok c2 =>
        rw [hco] at h
        dsimp only at h
        have hset : getCol (setCol f column c2) column2 = some c := by
          rw [getCol_setCol_ne f column column2 c2 hne]
          exact hget
        by_cases hcmiss : 0 < countMissing c2.vals
        · rw [if_pos hcmiss] at h
          cases h
          refine ⟨Col.mk c.dtype (applyMask (keepMask c2.vals) c.vals), ?_, rfl,
            applyMask_sublist _ _⟩
          rw [getCol_filterMask, hset]
          rfl
        · rw [if_neg hcmiss] at h
          cases h
          exact ⟨c, hset, rfl, List.Sublist.refl _⟩

theorem vdt_other : ∀ (schema : Schema) (f : Frame) (lg : Logs) (g : Frame) (lg2 : Logs)
    (column : String) (c : Col),
    validate_data_types schema f lg = .ok (g, lg2) →
    column ∉ schemaKeys schema → getCol f column = some c →
    ∃ c2, getCol g column = some c2 ∧ c2.dtype = c.dtype ∧ c2.vals.Sublist c.vals := by
  intro schema
  induction schema with
  | nil =>
    intro f lg g lg2 column c h _ hget
    cases h
    exact ⟨c, hget, rfl, List.Sublist.refl _⟩
  | cons e rest ih =>
    intro f lg g lg2 column c h hnotin hget
    obtain ⟨colH, rulesH⟩ := e
    rw [validate_data_types] at h
    cases hstep : validate_types_column f colH rulesH lg with
    | error e2 => rw [hstep] at h; cases h
    | ok p =>
      rw [hstep] at h
      dsimp only at h
      have hne : column ≠ colH := by
        intro heq
        exact hnotin (by simp [schemaKeys, heq])
      obtain ⟨c1, hc1, hd1, hs1⟩ := vtc_other hstep hne hget
      have hnotin2 : column ∉ schemaKeys rest := by
        intro hmem
        exact hnotin (by simp [schemaKeys] at hmem ⊢; exact Or.inr hmem)
      obtain ⟨c2, hc2, hd2, hs2⟩ := ih p.1 p.2 g lg2 column c1 h hnotin2 hc1
      exact ⟨c2, hc2, hd2.trans hd1, hs2.trans hs1⟩

theorem append_eq_self_nil {α : Type} {x e : List α} (h : x ++ e = x) : e = [] := by
  have hl := congrArg List.length h
  rw [List.length_append] at hl
  have h0 : e.length = 0 := by omega
  exact List.length_eq_zero.mp h0

/-- After a stage-2 run whose logger channel did not grow (no coercion
failure was caught), every schema column present in the output is fully
coerced, missing-free, and carries the coerced dtype. -/
theorem vdt_establishes : ∀ (schema : Schema) (f : Frame) (lg : Logs) (g : Frame)
    (lg2 : Logs), validate_data_types schema f lg = .ok (g, lg2) →
    lg2.loggerErrors = lg.loggerErrors → (schemaKeys schema).Nodup →
    ∀ column rules, (column, rules) ∈ schema → ∀ cg, getCol g column = some cg →
    colInvT rules cg := by
  intro schema
  induction schema with
  | nil => intro f lg g lg2 _ _ _ column rules hm; simp at hm
  | cons e rest ih =>
    intro f lg g lg2 h hlog hnodup column rules hm cg hcg
    obtain ⟨colH, rulesH⟩ := e
    rw [validate_data_types] at h
    cases hstep : validate_types_column f colH rulesH lg with
    | error e2 => rw [hstep] at h; cases h
    | ok p =>
      rw [hstep] at h
      dsimp only at h
      obtain ⟨e1, he1⟩ := vtc_logger_extend hstep
      obtain ⟨e2, he2⟩ := vdt_logger_extend rest p.1 p.2 g lg2 h
      have h12 : e1 ++ e2 = [] := by
        apply append_eq_self_nil (x := lg.loggerErrors)
        rw [← List.append_assoc, ← he1, ← he2]
        exact hlog
      have he1nil : e1 = [] := (List.append_eq_nil.mp h12).1
      have hlog1 : p.2.loggerErrors = lg.loggerErrors := by
        rw [he1, he1nil, List.append_nil]
      have hlogR : lg2.loggerErrors = p.2.loggerErrors := by rw [hlog, hlog1]
      have hkeys : schemaKeys ((colH, rulesH) :: rest) = colH :: schemaKeys rest := rfl
      have hnodup2 : (schemaKeys rest).Nodup := by
        rw [hkeys] at hnodup
        exact (List.nodup_cons.mp hnodup).2
      have hnotin : colH ∉ schemaKeys rest := by
        rw [hkeys] at hnodup
        exact (List.nodup_cons.mp hnodup).1
      rcases (by simpa using hm :
          (column = colH ∧ rules = rulesH) ∨ (column, rules) ∈ rest) with hhead | htail
      · obtain ⟨hc1, hr1⟩ := hhead
        subst hc1
        subst hr1
        cases hg : getCol f column with
        | none =>
          rw [vtc_absent hg] at hstep
          cases hstep
          have hnames := (stepOK_vdt rest f lg g lg2 h).1
          have hs : (getCol g column).isSome = (getCol f column).isSome :=
            getCol_isSome_congr g f hnames column
          rw [hcg, hg] at hs
          simp at hs
        | some c0 =>
          cases ht : rules.type with
          | none =>
            have herr : validate_types_column f column rules lg
                = .error ("KeyError: type missing in rules for " ++ column) := by
              unfold validate_types_column
              rw [hg]
              dsimp only
              rw [ht]
            rw [herr] at hstep
            cases hstep
          | some t =>
            cases hco : coerceCol t c0 with
            | error e3 =>
              have hp : p = (f, Logs.mk lg.errors
                  (lg.loggerErrors ++ [coercionErrMsg column e3])) := by
                have h2 := hstep
                unfold validate_types_column at h2
                rw [hg] at h2
                dsimp only at h2
                rw [ht] at h2
                dsimp only at h2
                rw [hco] at h2
                cases h2
                rfl
              rw [hp] at hlog1
              simp at hlog1
            | ok c2 =>
              have hpost := vtc_post hg ht hco hstep
              have hT := colInvT_establish ht hco
              obtain ⟨cg2, hcg2, hd, hs⟩ := vdt_other rest p.1 p.2 g lg2 column _
                h hnotin hpost
              rw [hcg] at hcg2
              cases hcg2
              exact colInvT_of_sub hT hd hs
      · exact ih p.1 p.2 g lg2 h hlogR hnodup2 column rules htail cg hcg

theorem boundFilter_post {cmp : Frac → Value → Except String Bool} {ob : Option Frac}
    {column : String} {f g : Frame} {c : Col} (hget : getCol f column = some c)
    (h : boundFilter cmp ob column f = .ok g) :
    ∃ c2, getCol g column = some c2 ∧ c2.dtype = c.dtype ∧ c2.vals.Sublist c.vals ∧
      ∀ b, ob = some b → ∀ v ∈ c2.vals, cmp b v = .ok true := by
  cases ob with
  | none =>
    cases h
    exact ⟨c, hget, rfl, List.Sublist.refl _, fun _ hb => nomatch hb⟩
  | some b =>
    unfold boundFilter at h
    rw [hget] at h
    dsimp only at h
    cases hmm : maskM (cmp b) c.vals with
    | error e => rw [hmm] at h; cases h
    | ok m =>
      rw [hmm] at h
      cases h
      refine ⟨Col.mk c.dtype (applyMask m c.vals), ?_, rfl, applyMask_sublist _ _, ?_⟩
      · rw [getCol_filterMask, hget]
        rfl
      · intro b2 hb2 v hv
        cases hb2
        exact maskM_ok_applyMask_true hmm v hv

theorem patternFilter_post (op : Option RePattern) {column : String} {f : Frame} {c : Col}
    (hget : getCol f column = some c) :
    ∃ c2, getCol (patternFilter op column f) column = some c2 ∧ c2.dtype = c.dtype ∧
      c2.vals.Sublist c.vals ∧
      ∀ pt, op = some pt → c2.dtype = .obj →
        ∀ v ∈ c2.vals, pt.matchesAtStart (pyStr v) = true := by
  cases op with
  | none => exact ⟨c, hget, rfl, List.Sublist.refl _, fun _ hb => nomatch hb⟩
  | some pt =>
    by_cases hd : c.dtype = DType.obj
    · have hpf : patternFilter (some pt) column f = filterMask (patternMask pt c.vals) f := by
        unfold patternFilter
        rw [hget]
        dsimp only
        rw [if_pos hd]
      refine ⟨Col.mk c.dtype (applyMask (patternMask pt c.vals) c.vals), ?_, rfl,
        applyMask_sublist _ _, ?_⟩
      · rw [hpf, getCol_filterMask, hget]
        rfl
      · intro pt2 hpt2 _ v hv
        cases hpt2
        rw [show patternMask pt c.vals
            = c.vals.map (fun v => pt.matchesAtStart (pyStr v)) from rfl,
          applyMask_map_keep, dropRowsBy_self] at hv
        exact (List.mem_filter.mp hv).2
    · have hpf : patternFilter (some pt) column f = f := by
        unfold patternFilter
        rw [hget]
        dsimp only
        rw [if_neg hd]
      rw [hpf]
      exact ⟨c, hget, rfl, List.Sublist.refl _, fun pt2 hpt2 hobj => absurd hobj hd⟩

theorem acc_column_post {f : Frame} {column : String} {rules : ColumnRule} {lg : Logs}
    {g : Frame} {lg2 : Logs} {c : Col}
    (hget : getCol f column = some c)
    (h : apply_constraints_column f column rules lg = .ok (g, lg2)) :
    ∃ d, getCol g column = some d ∧ d.dtype = c.dtype ∧ d.vals.Sublist c.vals ∧
      colInvC rules d := by
  unfold apply_constraints_column at h
  rw [hget] at h
  dsimp only at h
  cases h1 : boundFilter cmpGe rules.min_value column f with
  | error e => rw [h1] at h; cases h
  | ok f1 =>
    rw [h1] at h
    dsimp only at h
    cases h2 : boundFilter cmpLe rules.max_value column f1 with
    | error e => rw [h2] at h; cases h
    | ok f2 =>
      rw [h2] at h
      dsimp only at h
      obtain ⟨ca, hca, hda, hsa, hfa⟩ := boundFilter_post hget h1
      obtain ⟨cb, hcb, hdb, hsb, hfb⟩ := boundFilter_post hca h2
      obtain ⟨cc, hcc, hdc, hsc, hfc⟩ := patternFilter_post rules.pattern hcb
      have hg : g = patternFilter rules.pattern column f2 := by
        by_cases hc : 0 < nRows f - nRows (patternFilter rules.pattern column f2)
        · rw [if_pos hc] at h; cases h; rfl
        · rw [if_neg hc] at h; cases h; rfl
      subst hg
      refine ⟨cc, hcc, (hdc.trans hdb).trans hda, (hsc.trans hsb).trans hsa, ?_⟩
      intro v hv
      refine ⟨?_, ?_, ?_⟩
      · intro b hb
        exact hfa b hb v (hsb.subset (hsc.subset hv))
      · intro b hb
        exact hfb b hb v (hsc.subset hv)
      · intro pt hpt hobj
        exact hfc pt hpt hobj v hv

/-- After stage 3, every schema column present in the output passes all its
declared constraints row by row. -/
theorem acc_establishes : ∀ (schema : Schema) (f : Frame) (lg : Logs) (g : Frame)
    (lg2 : Logs), apply_constraints schema f lg = .ok (g, lg2) →
    ∀ column rules, (column, rules) ∈ schema → ∀ d, getCol g column = some d →
    colInvC rules d := by
  intro schema
  induction schema with
  | nil => intro f lg g lg2 _ column rules hm; simp at hm
  | cons e rest ih =>
    intro f lg g lg2 h column rules hm d hd
    obtain ⟨colH, rulesH⟩ := e
    rw [apply_constraints] at h
    cases hstep : apply_constraints_column f colH rulesH lg with
    | error e2 => rw [hstep] at h; cases h
    | ok p =>
      rw [hstep] at h
      dsimp only at h
      rcases (by simpa using hm :
          (column = colH ∧ rules = rulesH) ∨ (column, rules) ∈ rest) with hhead | htail
      · obtain ⟨hc1, hr1⟩ := hhead
        subst hc1
        subst hr1
        cases hg : getCol f column with
        | none =>
          rw [acc_column_absent hg] at hstep
          cases hstep
          have hnames := ((stepOK_acc rest f lg g lg2 h).2).1
          have hs : (getCol g column).isSome = (getCol f column).isSome :=
            getCol_isSome_congr g f hnames column
          rw [hd, hg] at hs
          simp at hs
        | some c0 =>
          obtain ⟨d1, hd1, hdd, hds, hC⟩ := acc_column_post hg hstep
          have hsub : frameSub g p.1 := (stepOK_acc rest p.1 p.2 g lg2 h).2
          obtain ⟨hdt2, hsb2⟩ := hsub.2 column d1 d hd1 hd
          exact colInvC_of_sub hC hdt2 hsb2
      · exact ih p.1 p.2 g lg2 h column rules htail d hd

/-- The output of a successful run that caught no coercion failure is a
fully cleaned frame. -/
theorem run_establishes_inv {schema : Schema} {df g : Frame} {st : RunResult}
    (hnodup : (schemaKeys schema).Nodup)
    (h : clean_and_validate schema df = .ok (g, st))
    (hnolog : st.loggerErrors = []) : frameInv schema g := by
  obtain ⟨f1, lg1, f2, lg2, f3, lg3, lg4, h1, h2, h3, h4, h5⟩ := clean_ok_parts h
  have hl1 : lg1.loggerErrors = ([] : List String) := by
    have hx := hmv_logger schema df noLogs
    rw [h1] at hx
    exact hx
  have hl4 : lg4.loggerErrors = lg3.loggerErrors := by
    have hx : (remove_outliers schema f3 lg3).2.loggerErrors = lg3.loggerErrors :=
      rol_logger (numericColumns f3) schema f3 lg3
    rw [h4] at hx
    exact hx
  have hl3 : lg3.loggerErrors = lg2.loggerErrors := acc_logger schema f2 lg2 f3 lg3 h3
  have hst : st.loggerErrors = lg4.loggerErrors := by rw [h5]
  have hl2 : lg2.loggerErrors = lg1.loggerErrors := by
    rw [hl1, ← hl3, ← hl4, ← hst]
    exact hnolog
  have hT := vdt_establishes schema f1 lg1 f2 lg2 h2 hl2 hnodup
  have hC := acc_establishes schema f2 lg2 f3 lg3 h3
  have hs3 : frameSub f3 f2 := (stepOK_acc schema f2 lg2 f3 lg3 h3).2
  have hs4 : frameSub g f3 := by
    have hx := (stepOK_ro schema f3 lg3).2
    rw [h4] at hx
    exact hx
  intro column rules hm c hcg
  have hsome3 : (getCol f3 column).isSome = true := by
    rw [getCol_isSome_congr f3 g hs4.1.symm column, hcg]
    rfl
  rcases Option.isSome_iff_exists.mp hsome3 with ⟨c3, hc3⟩
  have hsome2 : (getCol f2 column).isSome = true := by
    rw [getCol_isSome_congr f2 f3 hs3.1.symm column, hc3]
    rfl
  rcases Option.isSome_iff_exists.mp hsome2 with ⟨c2v, hc2v⟩
  obtain ⟨hdt3, hsb3⟩ := hs3.2 column c2v c3 hc2v hc3
  obtain ⟨hdt4, hsb4⟩ := hs4.2 column c3 c hc3 hcg
  constructor
  · exact colInvT_of_sub (colInvT_of_sub (hT column rules hm c2v hc2v) hdt3 hsb3) hdt4 hsb4
  · exact colInvC_of_sub (hC column rules hm c3 hc3) hdt4 hsb4

theorem run_preserves_wf {schema : Schema} {df g : Frame} {st : RunResult}
    (hwf : wfF df = true) (h : clean_and_validate schema df = .ok (g, st)) :
    wfF g = true := by
  obtain ⟨f1, lg1, f2, lg2, f3, lg3, lg4, h1, h2, h3, h4, h5⟩ := clean_ok_parts h
  have s1 : stepOK df f1 := by
    have hx := stepOK_hmv schema df noLogs
    rw [h1] at hx
    exact hx
  have s2 : stepOK f1 f2 := stepOK_vdt schema f1 lg1 f2 lg2 h2
  have s3 : stepOK f2 f3 := (stepOK_acc schema f2 lg2 f3 lg3 h3).1
  have s4 : stepOK f3 g := by
    have hx := (stepOK_ro schema f3 lg3).1
    rw [h4] at hx
    exact hx
  exact s4.2.1 (s3.2.1 (s2.2.1 (s1.2.1 hwf)))

/-- C1 counterexample: one float64 column [0×7, 1, 1, 100] under a schema
that makes stages 1-3 no-ops.  The first run removes only 100 (fence
[-9/8, 15/8]) and returns 9 rows.  A second run on that output, on a fresh
pipeline instance with the same schema, recomputes the quartiles on the 9
remaining rows: both are 0, the fence collapses to [0, 0], and the two 1s
are removed — the second run logs a new entry ("Removed 2 outliers from x")
and returns 7 rows, not 9.  This refutes the claim that a second run
produces zero new log entries and an identical row count. -/
theorem c1_counterexample :
    clean_and_validate c1Schema c1DF = .ok (c1Out1F, c1Out1R) ∧
    clean_and_validate c1Schema c1Out1F = .ok (c1Out2F, c1Out2R) ∧
    c1Out1R.cleaned_rows = 9 ∧
    c1Out2R.errors = ["Removed 2 outliers from x"] ∧
    c1Out2R.cleaned_rows = 7 := ⟨rfl, rfl, rfl, rfl, rfl⟩

/-- C1 amended: for a well-formed table and a schema without duplicate keys,
after a successful run that caught no type-coercion failure (empty logger
channel), a second run of the pipeline on the output with the same schema
leaves the table untouched through stages 1-3 and produces no log entry
there; the whole second run reduces to stage 4 alone, whose quartile bounds
are recomputed from the cleaned data and may therefore remove further rows
and log new outlier entries. -/
theorem c1_amended_second_run (schema : Schema) (df g : Frame) (st : RunResult)
    (hwf : wfF df = true) (hnodup : (schemaKeys schema).Nodup)
    (hrun : clean_and_validate schema df = .ok (g, st))
    (hnolog : st.loggerErrors = []) :
    handle_missing_values schema g noLogs = (g, noLogs) ∧
    validate_data_types schema g noLogs = .ok (g, noLogs) ∧
    apply_constraints schema g noLogs = .ok (g, noLogs) ∧
    clean_and_validate schema g
      = .ok ((remove_outliers schema g noLogs).1,
             RunResult.mk (nRows g) (nRows (remove_outliers schema g noLogs).1)
               (remove_outliers schema g noLogs).2.errors
               (remove_outliers schema g noLogs).2.loggerErrors) := by
  have hinv := run_establishes_inv hnodup hrun hnolog
  have hwfg : wfF g = true := run_preserves_wf hwf hrun
  have hid1 := hmv_id schema g noLogs hinv
  have hid2 := vdt_id schema g noLogs hinv
  have hid3 := acc_id schema g noLogs hwfg hinv
  refine ⟨hid1, hid2, hid3, ?_⟩
  unfold clean_and_validate
  dsimp only
  rw [hid1]
  dsimp only
  rw [hid2]
  dsimp only
  rw [hid3]

/-- C1 amended witness: on the counterexample data the second run's stages
1-3 are silent identities, and the whole second run equals its stage 4. -/
theorem c1_amended_second_run_witness :
    handle_missing_values c1Schema c1Out1F noLogs = (c1Out1F, noLogs) ∧
    validate_data_types c1Schema c1Out1F noLogs = .ok (c1Out1F, noLogs) ∧
    apply_constraints c1Schema c1Out1F noLogs = .ok (c1Out1F, noLogs) ∧
    clean_and_validate c1Schema c1Out1F = .ok (c1Out2F, c1Out2R) := by
  have h := c1_amended_second_run c1Schema c1DF c1Out1F c1Out1R
    (by decide) (by decide) rfl rfl
  exact ⟨h.1, h.2.1, h.2.2.1, h.2.2.2⟩

end ExcelCleaner
